import Mathlib

/-!
# EpicEFIVirtualDash firmware: BLE to CAN bridge

A shallow embedding of `Firmware/src/main.cpp`.

* Bytes (`uint8_t`) are natural numbers; every place where the source casts to
  `uint8_t` or reads through a `const uint8_t*` reduces modulo 256.
* `int32_t` values are integers; a value produced by 32-bit arithmetic is
  wrapped into `[-2^31, 2^31)` by `wrapInt32`, and the two's complement bit
  pattern of an integer is `bits32`.
* The globals of the program are the fields of `State`; every function that
  mutates them takes a `State` and returns the new one together with the
  list of externally visible effects (`Event`) in the order they happen:
  frames handed to `canManager.sendMessage` and payloads notified on the
  variable-data characteristic. Diagnostic logging is not modelled.
-/

namespace EpicEFI

set_option maxRecDepth 4000

/-! ## Constants -/

def TS_HW_BUTTONBOX1_CATEGORY : Nat := 27
def CANBUS_BUTTONBOX_ADDRESS : Nat := 0x711
def ECU_ID : Nat := 1
def CAN_VAR_REQUEST_BASE : Nat := 0x700
def CAN_VAR_RESPONSE_BASE : Nat := 0x720
def MAX_BATCH_VARS : Nat := 16
def VAR_RESPONSE_SIZE : Nat := 8

/-! ## Data model -/

/-- A bus frame as the firmware sees it: identifier, data length, data bytes. -/
structure CANfettiFrame where
  id : Nat
  len : Nat
  buf : List Nat
deriving DecidableEq, Repr

/-- Externally visible effects of the firmware. -/
inductive Event where
  | canTx (frame : CANfettiFrame)
  | bleNotify (payload : List Nat)
deriving DecidableEq, Repr

/-- The global variables of `main.cpp`. `pVarDataChar` records whether the
pointer of that name is non-null. -/
structure State where
  deviceConnected : Bool
  oldDeviceConnected : Bool
  pVarDataChar : Bool
  lastButtonMask : Nat
  pendingVarHashes : List Int
  pendingVarCount : Nat
  pendingVarIndex : Nat
  batchResponseBuffer : List Nat
  batchResponseCount : Nat
deriving DecidableEq, Repr

/-- The values of the globals at program start, before `setupBLE` has run. -/
def State.boot : State :=
  { deviceConnected := false
    oldDeviceConnected := false
    pVarDataChar := false
    lastButtonMask := 0
    pendingVarHashes := List.replicate 16 0
    pendingVarCount := 0
    pendingVarIndex := 0
    batchResponseBuffer := List.replicate 128 0
    batchResponseCount := 0 }

/-- The globals after `setup()`: `setupBLE` has created the variable-data
characteristic. -/
def State.init : State := { State.boot with pVarDataChar := true }

/-- The arrays have their declared sizes. -/
def State.WF (s : State) : Prop :=
  s.pendingVarHashes.length = MAX_BATCH_VARS ∧
  s.batchResponseBuffer.length = MAX_BATCH_VARS * VAR_RESPONSE_SIZE

instance (s : State) : Decidable s.WF := by
  unfold State.WF; infer_instance

/-! ## Big-endian helpers -/

/-- Two's complement bit pattern (32 bits) of an integer. -/
def bits32 (v : Int) : Nat := (v % 2 ^ 32).toNat

/-- The `int32_t` whose bit pattern is the low 32 bits of `n`. -/
def wrapInt32 (n : Nat) : Int :=
  if n % 2 ^ 32 < 2 ^ 31 then (n % 2 ^ 32 : Nat) else (n % 2 ^ 32 : Nat) - 2 ^ 32

/-- Byte `j` of a byte buffer, read through a `uint8_t` pointer. -/
def byteAt (p : List Nat) (j : Nat) : Nat := p.getD j 0 % 256

/-- `writeInt32BigEndian(value, out)`: the four bytes stored to `out[0..3]`.
`>>` on `int32_t` is the arithmetic shift; `& 0xFF` acts on the bit pattern. -/
def writeInt32BigEndian (value : Int) : List Nat :=
  [ (bits32 (value >>> (24 : Nat)) &&& 0xFF) % 256,
    (bits32 (value >>> (16 : Nat)) &&& 0xFF) % 256,
    (bits32 (value >>> (8 : Nat)) &&& 0xFF) % 256,
    (bits32 value &&& 0xFF) % 256 ]

/-- `readInt32BigEndian(in)`. -/
def readInt32BigEndian (inp : List Nat) : Int :=
  wrapInt32 ((byteAt inp 0 <<< 24) ||| (byteAt inp 1 <<< 16) |||
             (byteAt inp 2 <<< 8) ||| byteAt inp 3)

/-! ## Bus transmit -/

/-- `memcpy(dst + off, src, src.length)` on byte lists, for a copy that stays inside
`dst` (`off + src.length ≤ dst.length`). -/
def memcpy (dst : List Nat) (off : Nat) (src : List Nat) : List Nat :=
  dst.take off ++ src ++ dst.drop (off + src.length)

/-- `sendButtonCanFrame(buttonMask)`. -/
def sendButtonCanFrame (buttonMask : Nat) : List Event :=
  let data : List Nat :=
    [ 0x5A, 0x00, TS_HW_BUTTONBOX1_CATEGORY,
      ((buttonMask >>> 8) &&& 0xFF) % 256,
      (buttonMask &&& 0xFF) % 256, 0, 0, 0 ]
  [ Event.canTx { id := CANBUS_BUTTONBOX_ADDRESS, len := 5, buf := data.take 5 } ]

/-- `requestCanVariable(varHash)`. -/
def requestCanVariable (varHash : Int) : List Event :=
  let data : List Nat := memcpy (List.replicate 8 0) 0 (writeInt32BigEndian varHash)
  [ Event.canTx { id := CAN_VAR_REQUEST_BASE + ECU_ID, len := 4, buf := data.take 4 } ]

/-! ## BLE callbacks -/

/-- `MyServerCallbacks::onConnect`. -/
def MyServerCallbacks.onConnect (s : State) : State := { s with deviceConnected := true }

/-- `MyServerCallbacks::onDisconnect`. -/
def MyServerCallbacks.onDisconnect (s : State) : State := { s with deviceConnected := false }

/-- The value of `1 << buttonId`, an `int` shift of a promoted `uint8_t`. The shifter of a
32-bit machine takes the count modulo 32, so an index of 32 or more (where C++ leaves the
shift undefined) shifts by `buttonId mod 32`; for an index up to 31 this is the plain
shift. -/
def shiftOne (buttonId : Nat) : Nat := 1 <<< (buttonId % 32)

/-- The mask computed by `ButtonCharCallbacks::onWrite` from the written
bytes, when the write is long enough to have one: the same two expressions as in
`ButtonCharCallbacks.onWrite` below (see `ButtonCharCallbacks.onWrite_eq`). The
conversion to `uint16_t` keeps the low 16 bits, so a one-byte index `i` gives `2^(i mod 32)`
when `i mod 32 ≤ 15` and mask 0 otherwise. -/
def buttonMaskOf (value : List Nat) : Option Nat :=
  if value.length ≥ 2 then
    some ((byteAt value 0 ||| (byteAt value 1 <<< 8)) % 2 ^ 16)
  else if value.length = 1 then
    some (shiftOne (byteAt value 0) % 2 ^ 16)
  else none

/-- `ButtonCharCallbacks::onWrite`. -/
def ButtonCharCallbacks.onWrite (s : State) (value : List Nat) : State × List Event :=
  if value.length ≥ 2 then
    let buttonMask := (byteAt value 0 ||| (byteAt value 1 <<< 8)) % 2 ^ 16
    if buttonMask ≠ s.lastButtonMask then
      ({ s with lastButtonMask := buttonMask }, sendButtonCanFrame buttonMask)
    else (s, [])
  else if value.length = 1 then
    let buttonId := byteAt value 0
    let buttonMask := shiftOne buttonId % 2 ^ 16
    if buttonMask ≠ s.lastButtonMask then
      ({ s with lastButtonMask := buttonMask }, sendButtonCanFrame buttonMask)
    else (s, [])
  else (s, [])

/-- The `for` loop of `VarRequestCharCallbacks::onWrite`, started at byte
offset `i`; `fuel` bounds the number of iterations. -/
def parseLoop : Nat → List Nat → Nat → List Int → Nat → List Int × Nat
  | 0, _, _, hashes, count => (hashes, count)
  | fuel + 1, value, i, hashes, count =>
    if i + 4 ≤ value.length ∧ count < MAX_BATCH_VARS then
      parseLoop fuel value (i + 4)
        (hashes.set count (readInt32BigEndian (value.drop i))) ((count + 1) % 256)
    else (hashes, count)

/-- `VarRequestCharCallbacks::onWrite`. -/
def VarRequestCharCallbacks.onWrite (s : State) (value : List Nat) : State × List Event :=
  let len := value.length
  if len ≥ 4 then
    let r := parseLoop len value 0 s.pendingVarHashes 0
    let s1 : State :=
      { s with pendingVarHashes := r.1, pendingVarCount := r.2,
               pendingVarIndex := 0, batchResponseCount := 0 }
    if s1.pendingVarCount > 0 then
      (s1, requestCanVariable (s1.pendingVarHashes.getD 0 0))
    else (s1, [])
  else (s, [])

/-! ## Bus receive -/

/-- The eight bytes `memcpy(..., frame.buf, 8)` reads from `frame.buf`. A frame with
`len ≥ 8` has them all; positions past the end of a shorter list read as 0. -/
def payload8 (frame : CANfettiFrame) : List Nat :=
  (List.range 8).map (byteAt frame.buf)

/-- The body of the `while` loop of `processCanRx` for one received frame. -/
def processCanFrame (s : State) (frame : CANfettiFrame) : State × List Event :=
  if frame.id = CAN_VAR_RESPONSE_BASE + ECU_ID ∧ frame.len ≥ 8 then
    if s.deviceConnected = true ∧ s.pVarDataChar = true then
      let s1 : State :=
        if s.batchResponseCount < MAX_BATCH_VARS then
          { s with
            batchResponseBuffer :=
              memcpy s.batchResponseBuffer (s.batchResponseCount * VAR_RESPONSE_SIZE)
                (payload8 frame)
            batchResponseCount := (s.batchResponseCount + 1) % 256 }
        else s
      let s2 : State := { s1 with pendingVarIndex := (s1.pendingVarIndex + 1) % 256 }
      if s2.pendingVarIndex < s2.pendingVarCount then
        (s2, requestCanVariable (s2.pendingVarHashes.getD s2.pendingVarIndex 0))
      else
        let ev : List Event :=
          if s2.batchResponseCount > 0 then
            [ Event.bleNotify
                (s2.batchResponseBuffer.take (s2.batchResponseCount * VAR_RESPONSE_SIZE)) ]
          else []
        ({ s2 with pendingVarCount := 0, pendingVarIndex := 0, batchResponseCount := 0 }, ev)
    else (s, [])
  else (s, [])

/-- `processCanRx()`: the loop drains the frames buffered by the bus driver,
in arrival order. -/
def processCanRx : State → List CANfettiFrame → State × List Event
  | s, [] => (s, [])
  | s, frame :: rest =>
    let r := processCanFrame s frame
    let r2 := processCanRx r.1 rest
    (r2.1, r.2 ++ r2.2)

/-! ## Vocabulary for the statements -/

/-- A frame that `processCanRx` treats as a variable response. -/
def isVarResponse (frame : CANfettiFrame) : Bool :=
  decide (frame.id = CAN_VAR_RESPONSE_BASE + ECU_ID ∧ frame.len ≥ 8)

/-- Hash number `i` of a request write: bytes `4i .. 4i+3`, big-endian. -/
def hashAt (value : List Nat) (i : Nat) : Int :=
  readInt32BigEndian (value.drop (4 * i))

/-- The frames of an event list that were handed to the bus. -/
def busFrames : List Event → List CANfettiFrame
  | [] => []
  | Event.canTx f :: rest => f :: busFrames rest
  | Event.bleNotify _ :: rest => busFrames rest

/-- The payloads of an event list that were notified. -/
def notifications : List Event → List (List Nat)
  | [] => []
  | Event.canTx _ :: rest => notifications rest
  | Event.bleNotify p :: rest => p :: notifications rest

/-- The variable-request frame for a hash. -/
def requestFrame (varHash : Int) : CANfettiFrame :=
  { id := 0x701, len := 4, buf := writeInt32BigEndian varHash }

/-- Slot `i` (eight bytes) of a notification payload. -/
def slot (payload : List Nat) (i : Nat) : List Nat := (payload.drop (8 * i)).take 8

/-- A batch in flight on a connected link: the hashes `H` of which `K` are
pending, `j` responses consumed, and `acc` the response bytes stored so far. -/
def Progress (H : List Int) (K j : Nat) (acc : List Nat) (s : State) : Prop :=
  s.deviceConnected = true ∧ s.pVarDataChar = true ∧ s.pendingVarHashes = H ∧
  s.pendingVarCount = K ∧ s.pendingVarIndex = j ∧ s.batchResponseCount = j ∧
  s.batchResponseBuffer.length = 128 ∧ s.batchResponseBuffer.take (j * 8) = acc ∧
  K ≤ 16 ∧ j < K

/-- No batch in flight. -/
def State.Idle (s : State) : Prop :=
  s.pendingVarCount = 0 ∧ s.pendingVarIndex = 0 ∧ s.batchResponseCount = 0

/-- The state after `setup()` with a central connected. -/
def State.connected : State := { State.init with deviceConnected := true }

/-- A response frame from the ECU with the given data bytes. -/
def respFrame (payload : List Nat) : CANfettiFrame := { id := 0x721, len := 8, buf := payload }

/-- A batch of three hashes with two responses already stored, on a connected link. -/
def State.midBatch : State :=
  { State.connected with
    pendingVarHashes := [10, 11, 12] ++ List.replicate 13 0
    pendingVarCount := 3
    pendingVarIndex := 2
    batchResponseBuffer :=
      [0, 0, 0, 10, 1, 1, 1, 1, 0, 0, 0, 11, 2, 2, 2, 2] ++ List.replicate 112 0
    batchResponseCount := 2 }

/-- A batch of one hash awaiting its response, with the link down. -/
def State.stalled : State :=
  { State.init with pendingVarCount := 1 }

/-! ## The control loop and the interleaving of callbacks -/

/-- What the firmware does to the outside: an `Event`, or a call of
`pServer->startAdvertising()`. -/
inductive Action where
  | out (e : Event)
  | startAdvertising
deriving DecidableEq, Repr

/-- The part of `loop()` under the comment "Handle BLE connection state changes". The
`delay(500)` before the advertising restart does not touch the state. -/
def handleConnectionState (s1 : State) : State × List Action :=
  let r2 : State × List Action :=
    if s1.deviceConnected = false ∧ s1.oldDeviceConnected = true then
      ({ s1 with oldDeviceConnected := s1.deviceConnected }, [Action.startAdvertising])
    else (s1, [])
  let s2 := r2.1
  let s3 : State :=
    if s2.deviceConnected = true ∧ s2.oldDeviceConnected = false then
      { s2 with oldDeviceConnected := s2.deviceConnected }
    else s2
  (s3, r2.2)

/-- `loop()`, given the frames the bus driver has buffered when `processCanRx` runs. The
final `yield()` does not touch the state. -/
def loop (s : State) (frames : List CANfettiFrame) : State × List Action :=
  let r := processCanRx s frames
  let c := handleConnectionState r.1
  (c.1, r.2.map Action.out ++ c.2)

/-- The entry points of the firmware after `setup()`: the wireless callbacks, the
processing of one received frame (one pass of the `while` loop of `processCanRx`), and one
whole `loop()` iteration. -/
inductive Input where
  | connect
  | disconnect
  | buttonWrite (value : List Nat)
  | requestWrite (value : List Nat)
  | canFrame (frame : CANfettiFrame)
  | loopIter (frames : List CANfettiFrame)
deriving DecidableEq, Repr

/-- One entry point run to completion. -/
def step (s : State) : Input → State × List Action
  | Input.connect => (MyServerCallbacks.onConnect s, [])
  | Input.disconnect => (MyServerCallbacks.onDisconnect s, [])
  | Input.buttonWrite value =>
    ((ButtonCharCallbacks.onWrite s value).1,
      (ButtonCharCallbacks.onWrite s value).2.map Action.out)
  | Input.requestWrite value =>
    ((VarRequestCharCallbacks.onWrite s value).1,
      (VarRequestCharCallbacks.onWrite s value).2.map Action.out)
  | Input.canFrame frame =>
    ((processCanFrame s frame).1, (processCanFrame s frame).2.map Action.out)
  | Input.loopIter frames => loop s frames

/-- A sequence of entry points, each run to completion, in the given order. -/
def run : State → List Input → State × List Action
  | s, [] => (s, [])
  | s, i :: rest =>
    let r := step s i
    let r2 := run r.1 rest
    (r2.1, r.2 ++ r2.2)

/-- The number of advertising restarts in a list of actions. -/
def restarts : List Action → Nat
  | [] => 0
  | Action.startAdvertising :: rest => restarts rest + 1
  | Action.out _ :: rest => restarts rest

/-- The values of `deviceConnected` that the loop iterations of an input sequence find, in
order, when the sequence starts with the flag equal to `dc`: a connect callback sets the
flag, a disconnect callback clears it, nothing else touches it. -/
def sampled : Bool → List Input → List Bool
  | _, [] => []
  | dc, Input.loopIter _ :: rest => dc :: sampled dc rest
  | _, Input.connect :: rest => sampled true rest
  | _, Input.disconnect :: rest => sampled false rest
  | dc, Input.buttonWrite _ :: rest => sampled dc rest
  | dc, Input.requestWrite _ :: rest => sampled dc rest
  | dc, Input.canFrame _ :: rest => sampled dc rest

/-- The number of falling edges (a `true` followed by a `false`) in the sequence
`prev, d₁, d₂, ...`. -/
def fallingEdges : Bool → List Bool → Nat
  | _, [] => 0
  | prev, d :: rest =>
    (if prev = true ∧ d = false then 1 else 0) + fallingEdges d rest

/-! ## The same code with every array access and counter increment checked

Each function below repeats its counterpart above and returns `none` as soon as an index
into `pendingVarHashes` or `batchResponseBuffer` would be out of range, a notified length
would exceed the buffer, or an 8-bit counter would wrap. The bytes of the written value
and of `frame.buf` are not part of the check. -/

/-- The parse loop with the store `pendingVarHashes[pendingVarCount++]` checked. -/
def parseLoopChecked : Nat → List Nat → Nat → List Int → Nat → Option (List Int × Nat)
  | 0, _, _, hashes, count => some (hashes, count)
  | fuel + 1, value, i, hashes, count =>
    if i + 4 ≤ value.length ∧ count < MAX_BATCH_VARS then
      if count < hashes.length ∧ count < 16 ∧ count + 1 < 256 then
        parseLoopChecked fuel value (i + 4)
          (hashes.set count (readInt32BigEndian (value.drop i))) (count + 1)
      else none
    else some (hashes, count)

/-- The request write with the store in the loop and the read `pendingVarHashes[0]`
checked. -/
def VarRequestCharCallbacks.onWriteChecked (s : State) (value : List Nat) :
    Option (State × List Event) :=
  let len := value.length
  if len ≥ 4 then
    match parseLoopChecked len value 0 s.pendingVarHashes 0 with
    | none => none
    | some r =>
      let s1 : State :=
        { s with pendingVarHashes := r.1, pendingVarCount := r.2,
                 pendingVarIndex := 0, batchResponseCount := 0 }
      if s1.pendingVarCount > 0 then
        if 0 < s1.pendingVarHashes.length ∧ 0 < s1.pendingVarCount ∧
            s1.pendingVarCount ≤ 16 then
          some (s1, requestCanVariable (s1.pendingVarHashes.getD 0 0))
        else none
      else some (s1, [])
  else some (s, [])

/-- The loop body of `processCanRx` with the copy into `batchResponseBuffer`, both
increments, the read `pendingVarHashes[pendingVarIndex]` and the notified length
checked. -/
def processCanFrameChecked (s : State) (frame : CANfettiFrame) :
    Option (State × List Event) :=
  if frame.id = CAN_VAR_RESPONSE_BASE + ECU_ID ∧ frame.len ≥ 8 then
    if s.deviceConnected = true ∧ s.pVarDataChar = true then
      let copied : Option State :=
        if s.batchResponseCount < MAX_BATCH_VARS then
          if s.batchResponseCount * VAR_RESPONSE_SIZE + 8 ≤ s.batchResponseBuffer.length ∧
              s.batchResponseCount * VAR_RESPONSE_SIZE + 8 ≤ 128 ∧
              s.batchResponseCount + 1 < 256 then
            some { s with
              batchResponseBuffer :=
                memcpy s.batchResponseBuffer (s.batchResponseCount * VAR_RESPONSE_SIZE)
                  (payload8 frame)
              batchResponseCount := s.batchResponseCount + 1 }
          else none
        else some s
      match copied with
      | none => none
      | some s1 =>
        if s1.pendingVarIndex + 1 < 256 then
          let s2 : State := { s1 with pendingVarIndex := s1.pendingVarIndex + 1 }
          if s2.pendingVarIndex < s2.pendingVarCount then
            if s2.pendingVarIndex < s2.pendingVarHashes.length ∧ s2.pendingVarCount ≤ 16 then
              some (s2, requestCanVariable (s2.pendingVarHashes.getD s2.pendingVarIndex 0))
            else none
          else
            if s2.batchResponseCount * VAR_RESPONSE_SIZE ≤ s2.batchResponseBuffer.length ∧
                s2.batchResponseCount * VAR_RESPONSE_SIZE ≤ 128 then
              let ev : List Event :=
                if s2.batchResponseCount > 0 then
                  [ Event.bleNotify
                      (s2.batchResponseBuffer.take
                        (s2.batchResponseCount * VAR_RESPONSE_SIZE)) ]
                else []
              some ({ s2 with pendingVarCount := 0, pendingVarIndex := 0,
                              batchResponseCount := 0 }, ev)
            else none
        else none
    else some (s, [])
  else some (s, [])

/-- The drain of `processCanRx` over the checked loop body. -/
def processCanRxChecked : State → List CANfettiFrame → Option (State × List Event)
  | s, [] => some (s, [])
  | s, frame :: rest =>
    match processCanFrameChecked s frame with
    | none => none
    | some r =>
      match processCanRxChecked r.1 rest with
      | none => none
      | some r2 => some (r2.1, r.2 ++ r2.2)

/-- One entry point with the checked code; the other entry points touch no array. -/
def stepChecked (s : State) : Input → Option (State × List Action)
  | Input.requestWrite value =>
    match VarRequestCharCallbacks.onWriteChecked s value with
    | none => none
    | some r => some (r.1, r.2.map Action.out)
  | Input.canFrame frame =>
    match processCanFrameChecked s frame with
    | none => none
    | some r => some (r.1, r.2.map Action.out)
  | Input.loopIter frames =>
    match processCanRxChecked s frames with
    | none => none
    | some r =>
      let c := handleConnectionState r.1
      some (c.1, r.2.map Action.out ++ c.2)
  | i => some (step s i)

/-- A sequence of entry points with the checked code. -/
def runChecked : State → List Input → Option (State × List Action)
  | s, [] => some (s, [])
  | s, i :: rest =>
    match stepChecked s i with
    | none => none
    | some r =>
      match runChecked r.1 rest with
      | none => none
      | some r2 => some (r2.1, r.2 ++ r2.2)

/-- The invariant of the batch variables: arrays of their declared sizes, at most 16
pending hashes, as many stored responses as the cursor says, and the cursor below the
count unless no batch is in flight. -/
def State.BatchInv (s : State) : Prop :=
  s.WF ∧ s.pendingVarCount ≤ 16 ∧ s.batchResponseCount = s.pendingVarIndex ∧
  (s.pendingVarIndex < s.pendingVarCount ∨
    (s.pendingVarCount = 0 ∧ s.pendingVarIndex = 0))

/-! ## Codec lemmas -/

theorem be_or_eq_add (b0 b1 b2 b3 : Nat) (h1 : b1 < 256) (h2 : b2 < 256)
    (h3 : b3 < 256) :
    (b0 <<< 24) ||| (b1 <<< 16) ||| (b2 <<< 8) ||| b3
      = b0 * 2 ^ 24 + b1 * 2 ^ 16 + b2 * 2 ^ 8 + b3 := by
  have e1 : 2 ^ 24 * b0 + b1 * 2 ^ 16 = 2 ^ 24 * b0 ||| b1 * 2 ^ 16 :=
    Nat.mul_add_lt_is_or (by omega) b0
  have e2 : 2 ^ 16 * (b0 * 2 ^ 8 + b1) + b2 * 2 ^ 8 = 2 ^ 16 * (b0 * 2 ^ 8 + b1) ||| b2 * 2 ^ 8 :=
    Nat.mul_add_lt_is_or (by omega) _
  have e3 : 2 ^ 8 * (b0 * 2 ^ 16 + b1 * 2 ^ 8 + b2) + b3
      = 2 ^ 8 * (b0 * 2 ^ 16 + b1 * 2 ^ 8 + b2) ||| b3 :=
    Nat.mul_add_lt_is_or (by omega) _
  have a1 : b0 <<< 24 = 2 ^ 24 * b0 := by rw [Nat.shiftLeft_eq]; omega
  have a2 : b1 <<< 16 = b1 * 2 ^ 16 := Nat.shiftLeft_eq _ _
  have a3 : b2 <<< 8 = b2 * 2 ^ 8 := Nat.shiftLeft_eq _ _
  rw [a1, a2, a3, ← e1]
  have c1 : 2 ^ 24 * b0 + b1 * 2 ^ 16 = 2 ^ 16 * (b0 * 2 ^ 8 + b1) := by omega
  rw [c1, ← e2]
  have c2 : 2 ^ 16 * (b0 * 2 ^ 8 + b1) + b2 * 2 ^ 8 = 2 ^ 8 * (b0 * 2 ^ 16 + b1 * 2 ^ 8 + b2) := by
    omega
  rw [c2, ← e3]
  omega

theorem and_ff (n : Nat) : (n &&& 0xFF) % 256 = n % 256 := by
  have h := Nat.and_pow_two_sub_one_eq_mod n 8
  norm_num at h
  rw [h]
  omega

theorem byte_of_shift (v : Int) (k : Nat) :
    (bits32 (v >>> k) &&& 0xFF) % 256 = ((v / (2 ^ k : Nat)) % 256).toNat := by
  rw [and_ff, Int.shiftRight_eq_div_pow]
  unfold bits32
  omega

theorem byte_low (v : Int) : (bits32 v &&& 0xFF) % 256 = (v % 256).toNat := by
  rw [and_ff]
  unfold bits32
  omega

theorem writeInt32BigEndian_eq (v : Int) :
    writeInt32BigEndian v =
      [ ((v / 2 ^ 24) % 256).toNat, ((v / 2 ^ 16) % 256).toNat,
        ((v / 2 ^ 8) % 256).toNat, (v % 256).toNat ] := by
  unfold writeInt32BigEndian
  rw [byte_of_shift, byte_of_shift, byte_of_shift, byte_low]
  norm_num

theorem readInt32BigEndian_eq (inp : List Nat) :
    readInt32BigEndian inp =
      wrapInt32 (byteAt inp 0 * 2 ^ 24 + byteAt inp 1 * 2 ^ 16 + byteAt inp 2 * 2 ^ 8
        + byteAt inp 3) := by
  have hb : ∀ j, byteAt inp j < 256 := fun j => Nat.mod_lt _ (by decide)
  unfold readInt32BigEndian
  rw [be_or_eq_add _ _ _ _ (hb 1) (hb 2) (hb 3)]

theorem wrap_bytes_of_int (v : Int) (hlo : -2147483648 ≤ v) (hhi : v < 2147483648) :
    wrapInt32 (((v / 2 ^ 24) % 256).toNat * 2 ^ 24 + ((v / 2 ^ 16) % 256).toNat * 2 ^ 16
      + ((v / 2 ^ 8) % 256).toNat * 2 ^ 8 + (v % 256).toNat) = v := by
  unfold wrapInt32
  have e : ((v / 2 ^ 24) % 256).toNat * 2 ^ 24 + ((v / 2 ^ 16) % 256).toNat * 2 ^ 16
      + ((v / 2 ^ 8) % 256).toNat * 2 ^ 8 + (v % 256).toNat = (v % 4294967296).toNat := by
    omega
  have e2 : (v % 4294967296).toNat % 2 ^ 32 = (v % 4294967296).toNat := by omega
  rw [e, e2]
  split <;> omega

theorem read_write (v : Int) (hlo : -2 ^ 31 ≤ v) (hhi : v < 2 ^ 31) :
    readInt32BigEndian (writeInt32BigEndian v) = v := by
  rw [readInt32BigEndian_eq, writeInt32BigEndian_eq]
  have b0 : ∀ a b c d : Nat, byteAt [a, b, c, d] 0 = a % 256 := fun _ _ _ _ => rfl
  have b1 : ∀ a b c d : Nat, byteAt [a, b, c, d] 1 = b % 256 := fun _ _ _ _ => rfl
  have b2 : ∀ a b c d : Nat, byteAt [a, b, c, d] 2 = c % 256 := fun _ _ _ _ => rfl
  have b3 : ∀ a b c d : Nat, byteAt [a, b, c, d] 3 = d % 256 := fun _ _ _ _ => rfl
  rw [b0, b1, b2, b3]
  have m : ∀ x : Int, (x % 256).toNat % 256 = (x % 256).toNat := fun x => by omega
  rw [m, m, m, m]
  exact wrap_bytes_of_int v (by omega) (by omega)

theorem bytes_of_wrap (b0 b1 b2 b3 : Nat) (h0 : b0 < 256) (h1 : b1 < 256) (h2 : b2 < 256)
    (h3 : b3 < 256) :
    let v := wrapInt32 (b0 * 2 ^ 24 + b1 * 2 ^ 16 + b2 * 2 ^ 8 + b3)
    ((v / 2 ^ 24) % 256).toNat = b0 ∧ ((v / 2 ^ 16) % 256).toNat = b1 ∧
      ((v / 2 ^ 8) % 256).toNat = b2 ∧ (v % 256).toNat = b3 := by
  intro v
  have hv : v = (b0 * 2 ^ 24 + b1 * 2 ^ 16 + b2 * 2 ^ 8 + b3 : Nat) ∨
      v = (b0 * 2 ^ 24 + b1 * 2 ^ 16 + b2 * 2 ^ 8 + b3 : Nat) - 4294967296 := by
    show wrapInt32 _ = _ ∨ wrapInt32 _ = _
    unfold wrapInt32
    have e : (b0 * 2 ^ 24 + b1 * 2 ^ 16 + b2 * 2 ^ 8 + b3) % 2 ^ 32
        = b0 * 2 ^ 24 + b1 * 2 ^ 16 + b2 * 2 ^ 8 + b3 := by omega
    rw [e]
    split
    · exact Or.inl rfl
    · exact Or.inr rfl
  push_cast at hv
  refine ⟨?_, ?_, ?_, ?_⟩ <;> rcases hv with hv | hv <;> omega

theorem write_read (b0 b1 b2 b3 : Nat) (h0 : b0 < 256) (h1 : b1 < 256) (h2 : b2 < 256)
    (h3 : b3 < 256) :
    writeInt32BigEndian (readInt32BigEndian [b0, b1, b2, b3]) = [b0, b1, b2, b3] := by
  rw [readInt32BigEndian_eq, writeInt32BigEndian_eq]
  have e0 : byteAt [b0, b1, b2, b3] 0 = b0 := Nat.mod_eq_of_lt h0
  have e1 : byteAt [b0, b1, b2, b3] 1 = b1 := Nat.mod_eq_of_lt h1
  have e2 : byteAt [b0, b1, b2, b3] 2 = b2 := Nat.mod_eq_of_lt h2
  have e3 : byteAt [b0, b1, b2, b3] 3 = b3 := Nat.mod_eq_of_lt h3
  rw [e0, e1, e2, e3]
  obtain ⟨r0, r1, r2, r3⟩ := bytes_of_wrap b0 b1 b2 b3 h0 h1 h2 h3
  rw [r0, r1, r2, r3]

/-! ## Request write and frame processing lemmas -/

theorem byteAt_drop (value : List Nat) (k j : Nat) :
    byteAt (value.drop k) j = byteAt value (k + j) := by
  unfold byteAt
  rw [List.getD_eq_getElem?_getD, List.getD_eq_getElem?_getD, List.getElem?_drop]

theorem requestCanVariable_eq (h : Int) :
    requestCanVariable h = [Event.canTx (requestFrame h)] := rfl

theorem payload8_length (f : CANfettiFrame) : (payload8 f).length = 8 := by
  simp [payload8]

/-- The parse loop, entered with `c` hashes already stored and the read offset
at `4 * c`, stops with `min (len / 4) 16` hashes stored. -/
theorem parseLoop_spec (value : List Nat) :
    ∀ (fuel c : Nat) (hashes : List Int),
      hashes.length = 16 → c ≤ min (value.length / 4) 16 → value.length ≤ fuel + 4 * c →
      (parseLoop fuel value (4 * c) hashes c).2 = min (value.length / 4) 16 ∧
      (parseLoop fuel value (4 * c) hashes c).1.length = 16 ∧
      (∀ i, i < c → (parseLoop fuel value (4 * c) hashes c).1.getD i 0 = hashes.getD i 0) ∧
      (∀ i, c ≤ i → i < min (value.length / 4) 16 →
        (parseLoop fuel value (4 * c) hashes c).1.getD i 0 = hashAt value i) := by
  intro fuel
  induction fuel with
  | zero =>
    intro c hashes hl hc hf
    have : c = min (value.length / 4) 16 := by omega
    rw [parseLoop]
    refine ⟨this, hl, fun _ _ => rfl, fun i h1 h2 => by omega⟩
  | succ n ih =>
    intro c hashes hl hc hf
    by_cases hcond : 4 * c + 4 ≤ value.length ∧ c < MAX_BATCH_VARS
    · have h16 : c < 16 := hcond.2
      have hstep : parseLoop (n + 1) value (4 * c) hashes c
          = parseLoop n value (4 * (c + 1))
              (hashes.set c (readInt32BigEndian (value.drop (4 * c)))) (c + 1) := by
        rw [parseLoop, if_pos hcond]
        have e1 : (c + 1) % 256 = c + 1 := Nat.mod_eq_of_lt (by omega)
        have e2 : 4 * c + 4 = 4 * (c + 1) := by omega
        rw [e1, e2]
      rw [hstep]
      have hl2 : (hashes.set c (readInt32BigEndian (value.drop (4 * c)))).length = 16 := by
        rw [List.length_set]; exact hl
      obtain ⟨r1, r2, r3, r4⟩ := ih (c + 1) _ hl2 (by omega) (by omega)
      refine ⟨r1, r2, ?_, ?_⟩
      · intro i hi
        rw [r3 i (by omega)]
        rw [List.getD_eq_getElem?_getD, List.getD_eq_getElem?_getD, List.getElem?_set]
        rw [if_neg (by omega)]
      · intro i hi1 hi2
        by_cases hic : i = c
        · subst hic
          rw [r3 i (by omega)]
          rw [List.getD_eq_getElem?_getD, List.getElem?_set, if_pos rfl, if_pos (by omega)]
          rfl
        · exact r4 i (by omega) hi2
    · have hK : c = min (value.length / 4) 16 := by
        have : MAX_BATCH_VARS = 16 := rfl
        omega
      rw [parseLoop, if_neg hcond]
      refine ⟨hK, hl, fun _ _ => rfl, fun i h1 h2 => by omega⟩

theorem VarRequestCharCallbacks.onWrite_spec (s : State) (value : List Nat)
    (hl : s.pendingVarHashes.length = 16) (hlen : 4 ≤ value.length) :
    ∃ H : List Int, H.length = 16 ∧
      (∀ i, i < min (value.length / 4) 16 → H.getD i 0 = hashAt value i) ∧
      VarRequestCharCallbacks.onWrite s value =
        ({ s with pendingVarHashes := H, pendingVarCount := min (value.length / 4) 16,
                  pendingVarIndex := 0, batchResponseCount := 0 },
         [Event.canTx (requestFrame (hashAt value 0))]) := by
  obtain ⟨r1, r2, _, r4⟩ := parseLoop_spec value value.length 0 s.pendingVarHashes hl
    (by omega) (by omega)
  refine ⟨(parseLoop value.length value 0 s.pendingVarHashes 0).1, r2,
    fun i hi => r4 i (by omega) hi, ?_⟩
  have hK : 0 < min (value.length / 4) 16 := by omega
  unfold VarRequestCharCallbacks.onWrite
  simp only [ge_iff_le, hlen, if_true, gt_iff_lt]
  simp only [Nat.mul_zero] at r1 r4
  rw [r1, if_pos hK, r4 0 (by omega) hK, requestCanVariable_eq]


theorem memcpy_length (dst src : List Nat) (off : Nat) (h : off + src.length ≤ dst.length) :
    (memcpy dst off src).length = dst.length := by
  simp only [memcpy, List.length_append, List.length_take, List.length_drop]
  omega

theorem memcpy_take (dst src : List Nat) (off : Nat) (h : off ≤ dst.length) :
    (memcpy dst off src).take (off + src.length) = dst.take off ++ src := by
  unfold memcpy
  apply List.take_left'
  simp only [List.length_append, List.length_take]
  omega

theorem processCanFrame_ignored (s : State) (f : CANfettiFrame)
    (h : isVarResponse f = false ∨ s.deviceConnected = false ∨ s.pVarDataChar = false) :
    processCanFrame s f = (s, []) := by
  unfold processCanFrame
  by_cases hf : f.id = CAN_VAR_RESPONSE_BASE + ECU_ID ∧ f.len ≥ 8
  · rw [if_pos hf]
    have hv : isVarResponse f = true := by simp [isVarResponse, hf]
    rcases h with h | h | h
    · rw [hv] at h; cases h
    · rw [if_neg (by simp [h])]
    · rw [if_neg (by simp [h])]
  · rw [if_neg hf]

theorem processCanFrame_accept (s : State) (f : CANfettiFrame)
    (hc : s.deviceConnected = true) (hp : s.pVarDataChar = true)
    (hf : isVarResponse f = true)
    (hj : s.batchResponseCount = s.pendingVarIndex) (h16 : s.pendingVarIndex < 16) :
    processCanFrame s f =
      if s.pendingVarIndex + 1 < s.pendingVarCount then
        ({ s with
            batchResponseBuffer :=
              memcpy s.batchResponseBuffer (s.pendingVarIndex * 8) (payload8 f)
            batchResponseCount := s.pendingVarIndex + 1
            pendingVarIndex := s.pendingVarIndex + 1 },
          [Event.canTx (requestFrame (s.pendingVarHashes.getD (s.pendingVarIndex + 1) 0))])
      else
        ({ s with
            batchResponseBuffer :=
              memcpy s.batchResponseBuffer (s.pendingVarIndex * 8) (payload8 f)
            batchResponseCount := 0
            pendingVarIndex := 0
            pendingVarCount := 0 },
          [Event.bleNotify
            ((memcpy s.batchResponseBuffer (s.pendingVarIndex * 8) (payload8 f)).take
              ((s.pendingVarIndex + 1) * 8))]) := by
  have hf2 : f.id = CAN_VAR_RESPONSE_BASE + ECU_ID ∧ f.len ≥ 8 := by
    simpa [isVarResponse] using hf
  obtain ⟨dc, odc, pv, lbm, H, cnt, idx, buf, brc⟩ := s
  simp only at hc hp hj h16
  have hj2 : idx = brc := hj.symm
  subst hc hp hj2
  have hm : (idx + 1) % 256 = idx + 1 := Nat.mod_eq_of_lt (by omega)
  have hlt : idx < MAX_BATCH_VARS := h16
  unfold processCanFrame
  rw [if_pos hf2, if_pos ⟨rfl, rfl⟩]
  simp only [if_pos hlt, hm, VAR_RESPONSE_SIZE, requestCanVariable_eq]
  by_cases hlast : idx + 1 < cnt
  · rw [if_pos hlast, if_pos hlast]
  · rw [if_neg hlast, if_neg hlast, if_pos (Nat.succ_pos idx)]

theorem processCanRx_append (s : State) (a b : List CANfettiFrame) :
    processCanRx s (a ++ b) =
      ((processCanRx (processCanRx s a).1 b).1,
        (processCanRx s a).2 ++ (processCanRx (processCanRx s a).1 b).2) := by
  induction a generalizing s with
  | nil => simp [processCanRx]
  | cons f rest ih =>
    show processCanRx s (f :: (rest ++ b)) = _
    simp only [processCanRx, ih, List.append_assoc]

theorem processCanRx_single (s : State) (f : CANfettiFrame) :
    processCanRx s [f] = processCanFrame s f := by
  simp [processCanRx]

/-- One accepted frame that is not the last of the batch. -/
theorem progress_step (H : List Int) (K j : Nat) (acc : List Nat) (s : State)
    (f : CANfettiFrame) (hP : Progress H K j acc s) (hf : isVarResponse f = true)
    (hj : j + 1 < K) :
    Progress H K (j + 1) (acc ++ payload8 f) (processCanFrame s f).1 ∧
      (processCanFrame s f).2 = [Event.canTx (requestFrame (H.getD (j + 1) 0))] := by
  obtain ⟨hc, hp, hH, hK, hi, hb, hlen, hacc, hK16, _⟩ := hP
  have h := processCanFrame_accept s f hc hp hf (by rw [hb, hi]) (by omega)
  rw [if_pos (by omega)] at h
  rw [h]
  refine ⟨⟨hc, hp, hH, hK, ?_, ?_, ?_, ?_, hK16, hj⟩, ?_⟩
  · simp only [hi]
  · simp only [hi]
  · show (memcpy _ _ _).length = 128
    rw [memcpy_length _ _ _ (by rw [payload8_length]; omega), hlen]
  · show (memcpy _ _ _).take _ = _
    have e : (j + 1) * 8 = s.pendingVarIndex * 8 + (payload8 f).length := by
      rw [payload8_length, hi]; omega
    rw [e, memcpy_take _ _ _ (by omega), hi, hacc]
  · simp only [hH, hi]

/-- The accepted frame that completes the batch. -/
theorem progress_last (H : List Int) (K j : Nat) (acc : List Nat) (s : State)
    (f : CANfettiFrame) (hP : Progress H K j acc s) (hf : isVarResponse f = true)
    (hj : j + 1 = K) :
    (processCanFrame s f).1.Idle ∧
      (processCanFrame s f).1.pendingVarHashes = H ∧
      (processCanFrame s f).2 = [Event.bleNotify (acc ++ payload8 f)] := by
  obtain ⟨hc, hp, hH, hK, hi, hb, hlen, hacc, hK16, _⟩ := hP
  have h := processCanFrame_accept s f hc hp hf (by rw [hb, hi]) (by omega)
  rw [if_neg (by omega)] at h
  rw [h]
  refine ⟨⟨rfl, rfl, rfl⟩, hH, ?_⟩
  have e : (s.pendingVarIndex + 1) * 8 = s.pendingVarIndex * 8 + (payload8 f).length := by
    rw [payload8_length]; omega
  simp only [e]
  rw [memcpy_take _ _ _ (by omega), hi, hacc]

/-- The request events for the hashes at positions `a, a+1, ..., a+n-1`. -/
theorem progress_run (H : List Int) (K : Nat) :
    ∀ (fs : List CANfettiFrame) (j : Nat) (acc : List Nat) (s : State),
      Progress H K j acc s → (∀ f ∈ fs, isVarResponse f = true) → j + fs.length < K →
      Progress H K (j + fs.length) (acc ++ fs.flatMap payload8) (processCanRx s fs).1 ∧
        (processCanRx s fs).2 =
          (List.range' (j + 1) fs.length).map (fun i => Event.canTx (requestFrame (H.getD i 0))) := by
  intro fs
  induction fs with
  | nil =>
    intro j acc s hP _ _
    simpa [processCanRx] using hP
  | cons f rest ih =>
    intro j acc s hP hall hlen
    simp only [List.length_cons] at hlen
    obtain ⟨hP1, he1⟩ := progress_step H K j acc s f hP (hall f (List.mem_cons_self _ _))
      (by omega)
    obtain ⟨hP2, he2⟩ := ih (j + 1) (acc ++ payload8 f) (processCanFrame s f).1 hP1
      (fun g hg => hall g (List.mem_cons_of_mem _ hg)) (by omega)
    simp only [processCanRx, List.length_cons, List.flatMap_cons, he1, he2]
    constructor
    · have e : j + (rest.length + 1) = j + 1 + rest.length := by omega
      rw [e, ← List.append_assoc]
      exact hP2
    · simp [List.range'_succ]

theorem wrapInt32_range (n : Nat) : -2 ^ 31 ≤ wrapInt32 n ∧ wrapInt32 n < 2 ^ 31 := by
  unfold wrapInt32
  have h : n % 2 ^ 32 < 2 ^ 32 := Nat.mod_lt _ (by norm_num)
  split <;> constructor <;> omega

theorem readInt32BigEndian_take (l : List Nat) :
    readInt32BigEndian (l.take 4) = readInt32BigEndian l := by
  have hb : ∀ j, j < 4 → byteAt (l.take 4) j = byteAt l j := by
    intro j hj
    unfold byteAt
    rw [List.getD_eq_getElem?_getD, List.getD_eq_getElem?_getD, List.getElem?_take_of_lt hj]
  unfold readInt32BigEndian
  rw [hb 0 (by omega), hb 1 (by omega), hb 2 (by omega), hb 3 (by omega)]

theorem payload8_eq (f : CANfettiFrame) :
    payload8 f = [byteAt f.buf 0, byteAt f.buf 1, byteAt f.buf 2, byteAt f.buf 3,
      byteAt f.buf 4, byteAt f.buf 5, byteAt f.buf 6, byteAt f.buf 7] := rfl

theorem byteAt_lt (p : List Nat) (j : Nat) : byteAt p j < 256 := Nat.mod_lt _ (by decide)

/-- The hash field of a stored response encodes `h` exactly when the frame carried `h`. -/
theorem hash_field_iff (f : CANfettiFrame) (h : Int) (hlo : -2 ^ 31 ≤ h) (hhi : h < 2 ^ 31) :
    (payload8 f).take 4 = writeInt32BigEndian h ↔ readInt32BigEndian (payload8 f) = h := by
  constructor
  · intro e
    rw [← readInt32BigEndian_take, e, read_write h hlo hhi]
  · intro e
    rw [← e, ← readInt32BigEndian_take, payload8_eq]
    exact (write_read _ _ _ _ (byteAt_lt _ _) (byteAt_lt _ _) (byteAt_lt _ _)
      (byteAt_lt _ _)).symm

theorem hashAt_range (w : List Nat) (i : Nat) : -2 ^ 31 ≤ hashAt w i ∧ hashAt w i < 2 ^ 31 :=
  wrapInt32_range _

theorem flatMap_payload8_length (fs : List CANfettiFrame) :
    (fs.flatMap payload8).length = 8 * fs.length := by
  induction fs with
  | nil => rfl
  | cons f rest ih =>
    rw [List.flatMap_cons, List.length_append, ih, payload8_length, List.length_cons]
    omega

theorem slot_flatMap (fs : List CANfettiFrame) :
    ∀ (i : Nat) (f : CANfettiFrame), fs[i]? = some f → slot (fs.flatMap payload8) i = payload8 f := by
  induction fs with
  | nil => intro i f h; simp at h
  | cons g rest ih =>
    intro i f h
    cases i with
    | zero =>
      simp only [List.getElem?_cons_zero, Option.some.injEq] at h
      subst h
      unfold slot
      rw [List.flatMap_cons, Nat.mul_zero, List.drop_zero]
      exact List.take_left' (payload8_length g)
    | succ k =>
      simp only [List.getElem?_cons_succ] at h
      have := ih k f h
      unfold slot at this ⊢
      rw [List.flatMap_cons]
      have e : 8 * (k + 1) = (payload8 g).length + 8 * k := by rw [payload8_length]; omega
      rw [e, List.drop_append]
      exact this

/-- Running the frames that complete a batch. -/
theorem progress_complete (H : List Int) (K : Nat) (fs : List CANfettiFrame) (j : Nat)
    (acc : List Nat) (s : State) (hP : Progress H K j acc s)
    (hall : ∀ f ∈ fs, isVarResponse f = true) (hlen : j + fs.length = K) :
    (processCanRx s fs).1.Idle ∧
      (processCanRx s fs).2 =
        (List.range' (j + 1) (fs.length - 1)).map
            (fun i => Event.canTx (requestFrame (H.getD i 0)))
          ++ [Event.bleNotify (acc ++ fs.flatMap payload8)] := by
  have hjK : j < K := hP.2.2.2.2.2.2.2.2.2
  rcases List.eq_nil_or_concat fs with h | ⟨ini, lst, h⟩
  · subst h; simp at hlen; omega
  · rw [List.concat_eq_append] at h
    subst h
    simp only [List.length_append, List.length_singleton] at hlen
    obtain ⟨hP1, he1⟩ := progress_run H K ini j acc s hP
      (fun f hf => hall f (List.mem_append_left _ hf)) (by omega)
    obtain ⟨hI, _, he2⟩ := progress_last H K (j + ini.length) _ _ lst hP1
      (hall lst (by simp)) (by omega)
    rw [processCanRx_append, processCanRx_single]
    refine ⟨hI, ?_⟩
    simp only [he1, he2, List.length_append, List.length_singleton, Nat.add_sub_cancel,
      List.flatMap_append, List.flatMap_cons, List.flatMap_nil, List.append_nil,
      List.append_assoc]

theorem notifications_append (a b : List Event) :
    notifications (a ++ b) = notifications a ++ notifications b := by
  induction a with
  | nil => rfl
  | cons e rest ih => cases e <;> simp [notifications, ih]

theorem busFrames_append (a b : List Event) :
    busFrames (a ++ b) = busFrames a ++ busFrames b := by
  induction a with
  | nil => rfl
  | cons e rest ih => cases e <;> simp [busFrames, ih]

theorem notifications_requests (l : List Nat) (g : Nat → CANfettiFrame) :
    notifications (l.map (fun i => Event.canTx (g i))) = [] := by
  induction l with
  | nil => rfl
  | cons a rest ih => simpa [notifications] using ih

theorem busFrames_requests (l : List Nat) (g : Nat → CANfettiFrame) :
    busFrames (l.map (fun i => Event.canTx (g i))) = l.map g := by
  induction l with
  | nil => rfl
  | cons a rest ih => simpa [busFrames] using ih

/-- A request write on a connected link starts a batch. -/
theorem write_progress (s : State) (w : List Nat) (hwf : s.WF)
    (hc : s.deviceConnected = true) (hp : s.pVarDataChar = true) (hlen : 4 ≤ w.length) :
    ∃ H : List Int, H.length = 16 ∧
      (∀ i, i < min (w.length / 4) 16 → H.getD i 0 = hashAt w i) ∧
      Progress H (min (w.length / 4) 16) 0 [] (VarRequestCharCallbacks.onWrite s w).1 ∧
      (VarRequestCharCallbacks.onWrite s w).2 = [Event.canTx (requestFrame (hashAt w 0))] := by
  obtain ⟨H, h1, h2, h3⟩ := VarRequestCharCallbacks.onWrite_spec s w hwf.1 hlen
  refine ⟨H, h1, h2, ?_, by rw [h3]⟩
  rw [h3]
  refine ⟨hc, hp, rfl, rfl, rfl, rfl, hwf.2, by simp, by omega, by omega⟩

theorem processCanRx_ignored (s : State) (fs : List CANfettiFrame)
    (h : s.deviceConnected = false ∨ s.pVarDataChar = false) :
    processCanRx s fs = (s, []) := by
  induction fs with
  | nil => rfl
  | cons f rest ih =>
    rw [processCanRx, processCanFrame_ignored s f (Or.inr h), ih]
    rfl

/-- Frames that are not variable responses do not matter to a drain. -/
theorem processCanRx_filter (s : State) (fs : List CANfettiFrame) :
    processCanRx s fs = processCanRx s (fs.filter isVarResponse) := by
  induction fs generalizing s with
  | nil => rfl
  | cons f rest ih =>
    by_cases hf : isVarResponse f = true
    · rw [List.filter_cons_of_pos hf, processCanRx, processCanRx, ih]
    · have hf2 : isVarResponse f = false := by simpa using hf
      rw [List.filter_cons_of_neg hf, processCanRx, processCanFrame_ignored s f (Or.inl hf2), ih]
      simp

/-- Every notification produced while frames are drained is the concatenation of the
payloads of a block of consecutive accepted frames: those already stored (`recent`)
followed by accepted frames of the drained list. -/
theorem notifications_are_blocks :
    ∀ (fs : List CANfettiFrame) (s : State) (recent : List CANfettiFrame),
      s.batchResponseBuffer.length = 128 →
      s.batchResponseCount = s.pendingVarIndex →
      s.pendingVarIndex = recent.length →
      s.batchResponseBuffer.take (recent.length * 8) = recent.flatMap payload8 →
      (s.pendingVarIndex < s.pendingVarCount ∧ s.pendingVarCount ≤ 16 ∨
        s.pendingVarCount = 0 ∧ s.pendingVarIndex = 0) →
      ∀ p ∈ notifications (processCanRx s fs).2,
        ∃ blk : List CANfettiFrame, blk ≠ [] ∧
          blk <:+: recent ++ fs.filter isVarResponse ∧ p = blk.flatMap payload8 := by
  intro fs
  induction fs with
  | nil =>
    intro s recent _ _ _ _ _ p hp
    simp [processCanRx, notifications] at hp
  | cons f rest ih =>
    intro s recent hlen hbrc hidx hbuf hinv p hp
    by_cases hconn : s.deviceConnected = true ∧ s.pVarDataChar = true
    · by_cases hf : isVarResponse f = true
      · have h16 : s.pendingVarIndex < 16 := by omega
        have hacc := processCanFrame_accept s f hconn.1 hconn.2 hf hbrc h16
        have hfilter : (f :: rest).filter isVarResponse = f :: rest.filter isVarResponse := by
          rw [List.filter_cons_of_pos hf]
        rw [hfilter]
        have htake : (memcpy s.batchResponseBuffer (s.pendingVarIndex * 8) (payload8 f)).take
            ((recent ++ [f]).length * 8) = (recent ++ [f]).flatMap payload8 := by
          have e : (recent ++ [f]).length * 8
              = s.pendingVarIndex * 8 + (payload8 f).length := by
            rw [payload8_length, List.length_append, List.length_singleton, hidx]; omega
          rw [e, memcpy_take _ _ _ (by omega), hidx, hbuf]
          simp
        have hmlen : (memcpy s.batchResponseBuffer (s.pendingVarIndex * 8) (payload8 f)).length
            = 128 := by
          rw [memcpy_length _ _ _ (by rw [payload8_length]; omega), hlen]
        rw [processCanRx, notifications_append] at hp
        by_cases hnext : s.pendingVarIndex + 1 < s.pendingVarCount
        · rw [if_pos hnext] at hacc
          have hev : notifications (processCanFrame s f).2 = [] := by rw [hacc]; rfl
          rw [hev, List.nil_append] at hp
          obtain ⟨blk, h1, h2, h3⟩ := ih (processCanFrame s f).1 (recent ++ [f])
            (by rw [hacc]; exact hmlen) (by rw [hacc])
            (by rw [hacc]; simp [hidx]) (by rw [hacc]; exact htake)
            (Or.inl (by
              have hc16 : s.pendingVarCount ≤ 16 := by omega
              rw [hacc]; exact ⟨hnext, hc16⟩)) p hp
          refine ⟨blk, h1, ?_, h3⟩
          simpa using h2
        · rw [if_neg hnext] at hacc
          have hev : notifications (processCanFrame s f).2
              = [(recent ++ [f]).flatMap payload8] := by
            rw [hacc, ← htake, List.length_append, List.length_singleton, hidx]
            rfl
          rw [hev] at hp
          rcases List.mem_append.mp hp with hp | hp
          · refine ⟨recent ++ [f], by simp, ?_, List.mem_singleton.mp hp⟩
            have e : recent ++ f :: rest.filter isVarResponse
                = (recent ++ [f]) ++ rest.filter isVarResponse := by simp
            rw [e]
            exact (List.prefix_append _ _).isInfix
          · obtain ⟨blk, h1, h2, h3⟩ := ih (processCanFrame s f).1 []
              (by rw [hacc]; exact hmlen) (by rw [hacc]) (by rw [hacc]; rfl)
              (by simp) (Or.inr (by rw [hacc]; exact ⟨rfl, rfl⟩)) p hp
            refine ⟨blk, h1, ?_, h3⟩
            have e : recent ++ f :: rest.filter isVarResponse
                = (recent ++ [f]) ++ (rest.filter isVarResponse ++ []) := by simp
            rw [e]
            exact List.IsInfix.trans (by simpa using h2) (List.infix_append' _ _ _)
      · have hf2 : isVarResponse f = false := by simpa using hf
        rw [processCanRx, processCanFrame_ignored s f (Or.inl hf2)] at hp
        have hfilter : (f :: rest).filter isVarResponse = rest.filter isVarResponse := by
          rw [List.filter_cons_of_neg hf]
        rw [hfilter]
        exact ih s recent hlen hbrc hidx hbuf hinv p (by simpa using hp)
    · have hoff : s.deviceConnected = false ∨ s.pVarDataChar = false := by
        by_cases h1 : s.deviceConnected = true
        · right
          have : ¬ s.pVarDataChar = true := fun h2 => hconn ⟨h1, h2⟩
          simpa using this
        · left; simpa using h1
      rw [processCanRx_ignored s _ hoff] at hp
      simp [notifications] at hp

theorem ButtonCharCallbacks.onWrite_eq (s : State) (value : List Nat) :
    ButtonCharCallbacks.onWrite s value =
      match buttonMaskOf value with
      | none => (s, [])
      | some m =>
        if m ≠ s.lastButtonMask then
          ({ s with lastButtonMask := m }, sendButtonCanFrame m)
        else (s, []) := by
  unfold ButtonCharCallbacks.onWrite buttonMaskOf
  by_cases h2 : value.length ≥ 2
  · simp only [if_pos h2]
  · by_cases h1 : value.length = 1
    · simp only [if_neg h2, if_pos h1]
    · simp only [if_neg h2, if_neg h1]

theorem ButtonCharCallbacks.onWrite_some (s : State) (value : List Nat) (m : Nat)
    (h : buttonMaskOf value = some m) :
    ButtonCharCallbacks.onWrite s value =
      if m ≠ s.lastButtonMask then
        ({ s with lastButtonMask := m }, sendButtonCanFrame m)
      else (s, []) := by
  rw [ButtonCharCallbacks.onWrite_eq, h]

/-! ## Button lemmas -/

theorem sendButtonCanFrame_eq (m : Nat) (hm : m < 2 ^ 16) :
    sendButtonCanFrame m =
      [Event.canTx { id := 0x711, len := 5, buf := [0x5A, 0x00, 27, m / 256, m % 256] }] := by
  have e1 : m >>> 8 = m / 256 := Nat.shiftRight_eq_div_pow m 8
  have e3 : ((m >>> 8) &&& 0xFF) % 256 = m / 256 := by
    rw [and_ff, e1]; omega
  have e4 : (m &&& 0xFF) % 256 = m % 256 := and_ff m
  unfold sendButtonCanFrame
  simp only [e3, e4]
  rfl

theorem buttonMaskOf_lt (value : List Nat) (m : Nat) (h : buttonMaskOf value = some m) :
    m < 2 ^ 16 := by
  unfold buttonMaskOf at h
  split at h
  · simp only [Option.some.injEq] at h
    rw [← h]; exact Nat.mod_lt _ (by norm_num)
  · split at h
    · simp only [Option.some.injEq] at h
      rw [← h]; exact Nat.mod_lt _ (by norm_num)
    · cases h

theorem buttonMaskOf_index (i : Nat) (hi : i ≤ 15) : buttonMaskOf [i] = some (2 ^ i) := by
  have hb : byteAt [i] 0 = i := by
    show i % 256 = i
    exact Nat.mod_eq_of_lt (by omega)
  have hs : shiftOne i = 2 ^ i := by
    unfold shiftOne
    rw [Nat.mod_eq_of_lt (by omega), Nat.shiftLeft_eq, Nat.one_mul]
  have hp : 2 ^ i < 2 ^ 16 := Nat.pow_lt_pow_right (by norm_num) (by omega)
  unfold buttonMaskOf
  simp only [List.length_singleton, ge_iff_le, Nat.not_ofNat_le_one, if_false, if_true, hb,
    hs, Nat.mod_eq_of_lt hp]

/-- An index of 32 or more wraps: index 35 selects bit 3. -/
theorem buttonMaskOf_index_35 : buttonMaskOf [35] = some 0x0008 := by decide

theorem buttonMaskOf_pair (b0 b1 : Nat) (rest : List Nat) (h0 : b0 < 256) (h1 : b1 < 256) :
    buttonMaskOf (b0 :: b1 :: rest) = some (b0 + 256 * b1) := by
  have e0 : byteAt (b0 :: b1 :: rest) 0 = b0 := Nat.mod_eq_of_lt h0
  have e1 : byteAt (b0 :: b1 :: rest) 1 = b1 := Nat.mod_eq_of_lt h1
  have hor : b0 ||| (b1 <<< 8) = b0 + 256 * b1 := by
    have h := Nat.mul_add_lt_is_or (show b0 < 2 ^ 8 by omega) b1
    rw [Nat.shiftLeft_eq, Nat.or_comm, Nat.mul_comm b1, ← h]
    omega
  have hlen : (b0 :: b1 :: rest).length ≥ 2 := by simp
  unfold buttonMaskOf
  rw [if_pos hlen, e0, e1, hor, Nat.mod_eq_of_lt (by omega)]

theorem buttonMaskOf_isSome (v : List Nat) (h : 1 ≤ v.length) :
    ∃ m, buttonMaskOf v = some m := by
  unfold buttonMaskOf
  by_cases ha : v.length ≥ 2
  · exact ⟨_, if_pos ha⟩
  · have hb : v.length = 1 := by omega
    rw [if_neg ha, if_pos hb]
    exact ⟨_, rfl⟩

/-! ## Whole batches -/

theorem payload8_respFrame_pair (h v : Int) :
    payload8 (respFrame (writeInt32BigEndian h ++ writeInt32BigEndian v))
      = writeInt32BigEndian h ++ writeInt32BigEndian v := by
  have m : ∀ x : Int, (x % 256).toNat % 256 = (x % 256).toNat := fun x => by omega
  rw [writeInt32BigEndian_eq, writeInt32BigEndian_eq, payload8_eq]
  simp only [respFrame, byteAt, List.cons_append, List.nil_append, List.getD_cons_zero,
    List.getD_cons_succ, m]

theorem isVarResponse_respFrame (l : List Nat) : isVarResponse (respFrame l) = true := by
  simp [isVarResponse, respFrame, CAN_VAR_RESPONSE_BASE, ECU_ID]

/-- The whole event stream of a batch that completes. -/
theorem batch_events (s : State) (w : List Nat) (fs : List CANfettiFrame)
    (hwf : s.WF) (hc : s.deviceConnected = true) (hp : s.pVarDataChar = true)
    (hlen : 4 ≤ w.length) (hfs : (fs.filter isVarResponse).length = min (w.length / 4) 16) :
    (processCanRx (VarRequestCharCallbacks.onWrite s w).1 fs).1.Idle ∧
    (processCanRx (VarRequestCharCallbacks.onWrite s w).1 fs).2 =
      (List.range' 1 (min (w.length / 4) 16 - 1)).map
          (fun i => Event.canTx (requestFrame (hashAt w i)))
        ++ [Event.bleNotify ((fs.filter isVarResponse).flatMap payload8)] := by
  obtain ⟨H, _, hH, hP, _⟩ := write_progress s w hwf hc hp hlen
  have hall : ∀ f ∈ fs.filter isVarResponse, isVarResponse f = true :=
    fun f hf => (List.mem_filter.mp hf).2
  obtain ⟨hI, hev⟩ := progress_complete H _ (fs.filter isVarResponse) 0 [] _ hP hall
    (by omega)
  rw [processCanRx_filter]
  refine ⟨hI, ?_⟩
  rw [hev, hfs, List.nil_append]
  congr 1
  apply List.map_congr_left
  intro i hi
  rw [List.mem_range'_1] at hi
  rw [hH i (by omega)]

/-! ## The batch invariant -/

theorem batchInv_init : State.init.BatchInv := by
  refine ⟨by decide, by decide, rfl, Or.inr ⟨rfl, rfl⟩⟩

theorem batchInv_boot : State.boot.BatchInv := by
  refine ⟨by decide, by decide, rfl, Or.inr ⟨rfl, rfl⟩⟩

theorem batchInv_requestWrite (s : State) (v : List Nat) (h : s.BatchInv) :
    (VarRequestCharCallbacks.onWrite s v).1.BatchInv := by
  by_cases hlen : 4 ≤ v.length
  · obtain ⟨H, hH, _, he⟩ := VarRequestCharCallbacks.onWrite_spec s v h.1.1 hlen
    rw [he]
    refine ⟨⟨hH, h.1.2⟩, Nat.min_le_right _ _, rfl, Or.inl ?_⟩
    show 0 < min (v.length / 4) 16
    omega
  · have e : VarRequestCharCallbacks.onWrite s v = (s, []) := by
      unfold VarRequestCharCallbacks.onWrite
      simp only [ge_iff_le]
      rw [if_neg hlen]
    rw [e]; exact h

theorem batchInv_frame (s : State) (f : CANfettiFrame) (h : s.BatchInv) :
    (processCanFrame s f).1.BatchInv := by
  by_cases hacc : isVarResponse f = true ∧ s.deviceConnected = true ∧ s.pVarDataChar = true
  · obtain ⟨hf, hc, hp⟩ := hacc
    obtain ⟨hwf, h16, hbrc, hcur⟩ := h
    have hidx : s.pendingVarIndex < 16 := by omega
    have hm : (memcpy s.batchResponseBuffer (s.pendingVarIndex * 8) (payload8 f)).length
        = MAX_BATCH_VARS * VAR_RESPONSE_SIZE := by
      have hl : s.batchResponseBuffer.length = 128 := hwf.2
      rw [memcpy_length _ _ _ (by rw [payload8_length]; omega)]
      exact hwf.2
    rw [processCanFrame_accept s f hc hp hf hbrc hidx]
    by_cases hnext : s.pendingVarIndex + 1 < s.pendingVarCount
    · rw [if_pos hnext]
      exact ⟨⟨hwf.1, hm⟩, h16, rfl, Or.inl hnext⟩
    · rw [if_neg hnext]
      exact ⟨⟨hwf.1, hm⟩, Nat.zero_le _, rfl, Or.inr ⟨rfl, rfl⟩⟩
  · have hig : isVarResponse f = false ∨ s.deviceConnected = false ∨ s.pVarDataChar = false := by
      by_cases h1 : isVarResponse f = true
      · by_cases h2 : s.deviceConnected = true
        · right; right
          have : ¬ s.pVarDataChar = true := fun h3 => hacc ⟨h1, h2, h3⟩
          simpa using this
        · right; left; simpa using h2
      · left; simpa using h1
    rw [processCanFrame_ignored s f hig]; exact h

theorem batchInv_rx (fs : List CANfettiFrame) :
    ∀ s : State, s.BatchInv → (processCanRx s fs).1.BatchInv := by
  induction fs with
  | nil => intro s h; exact h
  | cons f rest ih =>
    intro s h
    rw [processCanRx]
    exact ih _ (batchInv_frame s f h)

theorem batchInv_button (s : State) (v : List Nat) (h : s.BatchInv) :
    (ButtonCharCallbacks.onWrite s v).1.BatchInv := by
  rw [ButtonCharCallbacks.onWrite_eq]
  cases buttonMaskOf v with
  | none => exact h
  | some m =>
    dsimp only
    split
    · exact h
    · exact h

theorem batchInv_handleConnectionState (s : State) (h : s.BatchInv) :
    (handleConnectionState s).1.BatchInv := by
  unfold handleConnectionState
  dsimp only
  split <;> split <;> exact h

theorem batchInv_step (s : State) (i : Input) (h : s.BatchInv) : (step s i).1.BatchInv := by
  cases i with
  | connect => exact h
  | disconnect => exact h
  | buttonWrite v => exact batchInv_button s v h
  | requestWrite v => exact batchInv_requestWrite s v h
  | canFrame f => exact batchInv_frame s f h
  | loopIter fs => exact batchInv_handleConnectionState _ (batchInv_rx fs s h)

theorem batchInv_run (ins : List Input) :
    ∀ s : State, s.BatchInv → (run s ins).1.BatchInv := by
  induction ins with
  | nil => intro s h; exact h
  | cons i rest ih =>
    intro s h
    rw [run]
    exact ih _ (batchInv_step s i h)

/-! ## The checked code agrees with the code -/

theorem parseLoopChecked_eq (value : List Nat) :
    ∀ (fuel i c : Nat) (hashes : List Int), hashes.length = 16 →
      parseLoopChecked fuel value i hashes c = some (parseLoop fuel value i hashes c) := by
  intro fuel
  induction fuel with
  | zero => intro i c hashes _; rfl
  | succ n ih =>
    intro i c hashes hl
    rw [parseLoopChecked, parseLoop]
    by_cases hcond : i + 4 ≤ value.length ∧ c < MAX_BATCH_VARS
    · have h16 : c < 16 := hcond.2
      have hm : (c + 1) % 256 = c + 1 := Nat.mod_eq_of_lt (by omega)
      rw [if_pos hcond, if_pos hcond, if_pos ⟨by omega, h16, by omega⟩, hm]
      exact ih _ _ _ (by rw [List.length_set]; exact hl)
    · rw [if_neg hcond, if_neg hcond]

theorem onWriteChecked_eq (s : State) (v : List Nat) (hl : s.pendingVarHashes.length = 16) :
    VarRequestCharCallbacks.onWriteChecked s v = some (VarRequestCharCallbacks.onWrite s v) := by
  unfold VarRequestCharCallbacks.onWriteChecked VarRequestCharCallbacks.onWrite
  by_cases hlen : v.length ≥ 4
  · obtain ⟨r1, r2, _, _⟩ := parseLoop_spec v v.length 0 s.pendingVarHashes hl
      (by omega) (by omega)
    simp only [Nat.mul_zero] at r1 r2
    have hK : 0 < min (v.length / 4) 16 := by omega
    simp only [if_pos hlen, parseLoopChecked_eq v _ _ _ _ hl, r1, gt_iff_lt, if_pos hK, r2,
      Nat.min_le_right, and_self, Nat.lt_add_one, Nat.zero_lt_succ, and_true, if_true,
      show (0 : Nat) < 16 by decide, true_and]
  · simp only [if_neg hlen]

theorem processCanFrameChecked_eq (s : State) (f : CANfettiFrame) (h : s.BatchInv) :
    processCanFrameChecked s f = some (processCanFrame s f) := by
  obtain ⟨hwf, h16, hbrc, hcur⟩ := h
  have hb : s.batchResponseBuffer.length = 128 := hwf.2
  have hh : s.pendingVarHashes.length = 16 := hwf.1
  have hidx : s.pendingVarIndex < 16 := by omega
  obtain ⟨dc, odc, pv, lbm, H, cnt, idx, buf, brc⟩ := s
  simp only at hb hh hidx h16 hbrc hcur
  subst hbrc
  have hm : (brc + 1) % 256 = brc + 1 := Nat.mod_eq_of_lt (by omega)
  have hlt : brc < MAX_BATCH_VARS := hidx
  unfold processCanFrameChecked processCanFrame
  by_cases hf : f.id = CAN_VAR_RESPONSE_BASE + ECU_ID ∧ f.len ≥ 8
  · rw [if_pos hf, if_pos hf]
    by_cases hc : dc = true ∧ pv = true
    · rw [if_pos hc, if_pos hc]
      have hck1 : brc * VAR_RESPONSE_SIZE + 8 ≤ buf.length ∧
          brc * VAR_RESPONSE_SIZE + 8 ≤ 128 ∧ brc + 1 < 256 := by
        simp only [VAR_RESPONSE_SIZE]; omega
      have hck2 : brc + 1 < 256 := by omega
      simp only [if_pos hlt, if_pos hck1, if_pos hck2, hm]
      by_cases hnext : brc + 1 < cnt
      · have hck3 : brc + 1 < H.length ∧ cnt ≤ 16 := by omega
        simp only [if_pos hnext, if_pos hck3]
      · have hml : (memcpy buf (brc * VAR_RESPONSE_SIZE) (payload8 f)).length = 128 := by
          rw [memcpy_length _ _ _ (by rw [payload8_length]; simp only [VAR_RESPONSE_SIZE]; omega)]
          exact hb
        have hck4 : (brc + 1) * VAR_RESPONSE_SIZE ≤
              (memcpy buf (brc * VAR_RESPONSE_SIZE) (payload8 f)).length ∧
            (brc + 1) * VAR_RESPONSE_SIZE ≤ 128 := by
          rw [hml]; simp only [VAR_RESPONSE_SIZE]; omega
        simp only [if_neg hnext, if_pos hck4]
    · rw [if_neg hc, if_neg hc]
  · rw [if_neg hf, if_neg hf]

theorem processCanRxChecked_eq (fs : List CANfettiFrame) :
    ∀ s : State, s.BatchInv → processCanRxChecked s fs = some (processCanRx s fs) := by
  induction fs with
  | nil => intro s _; rfl
  | cons f rest ih =>
    intro s h
    rw [processCanRxChecked, processCanFrameChecked_eq s f h]
    simp only
    rw [ih _ (batchInv_frame s f h)]
    rfl

theorem stepChecked_eq (s : State) (i : Input) (h : s.BatchInv) :
    stepChecked s i = some (step s i) := by
  cases i with
  | connect => rfl
  | disconnect => rfl
  | buttonWrite v => rfl
  | requestWrite v =>
    rw [stepChecked, onWriteChecked_eq s v h.1.1]
    rfl
  | canFrame f =>
    rw [stepChecked, processCanFrameChecked_eq s f h]
    rfl
  | loopIter fs =>
    rw [stepChecked, processCanRxChecked_eq fs s h]
    rfl

theorem runChecked_eq (ins : List Input) :
    ∀ s : State, s.BatchInv → runChecked s ins = some (run s ins) := by
  induction ins with
  | nil => intro s _; rfl
  | cons i rest ih =>
    intro s h
    rw [runChecked, stepChecked_eq s i h]
    simp only
    rw [ih _ (batchInv_step s i h)]
    rfl

/-- The checks are not vacuous: outside the invariant (cursor 16 of a count of 20) the
read `pendingVarHashes[17]` is out of range and the checked loop body fails. -/
theorem processCanFrameChecked_fails_outside_invariant :
    processCanFrameChecked
      { State.connected with pendingVarCount := 20, pendingVarIndex := 16,
                             batchResponseCount := 16 }
      (respFrame [0, 0, 0, 1, 0, 0, 0, 5]) = none := by
  decide

/-! ## The control loop -/

theorem processCanFrame_conn (s : State) (f : CANfettiFrame) :
    (processCanFrame s f).1.deviceConnected = s.deviceConnected ∧
    (processCanFrame s f).1.oldDeviceConnected = s.oldDeviceConnected := by
  unfold processCanFrame
  dsimp only
  split_ifs <;> exact ⟨rfl, rfl⟩

theorem processCanRx_conn (fs : List CANfettiFrame) :
    ∀ s : State, (processCanRx s fs).1.deviceConnected = s.deviceConnected ∧
      (processCanRx s fs).1.oldDeviceConnected = s.oldDeviceConnected := by
  induction fs with
  | nil => intro s; exact ⟨rfl, rfl⟩
  | cons f rest ih =>
    intro s
    rw [processCanRx]
    obtain ⟨a, b⟩ := ih (processCanFrame s f).1
    obtain ⟨c, d⟩ := processCanFrame_conn s f
    exact ⟨a.trans c, b.trans d⟩

theorem restarts_append (a b : List Action) : restarts (a ++ b) = restarts a + restarts b := by
  induction a with
  | nil => simp [restarts]
  | cons x rest ih =>
    cases x with
    | out e => simpa [restarts] using ih
    | startAdvertising =>
      show restarts (rest ++ b) + 1 = restarts rest + 1 + restarts b
      rw [ih]; omega

theorem restarts_out (l : List Event) : restarts (l.map Action.out) = 0 := by
  induction l with
  | nil => rfl
  | cons e rest ih => simpa [restarts] using ih

theorem handleConnectionState_spec (s : State) :
    (handleConnectionState s).1.deviceConnected = s.deviceConnected ∧
    (handleConnectionState s).1.oldDeviceConnected = s.deviceConnected ∧
    restarts (handleConnectionState s).2 =
      (if s.deviceConnected = false ∧ s.oldDeviceConnected = true then 1 else 0) := by
  obtain ⟨dc, odc, pv, lbm, H, cnt, idx, buf, brc⟩ := s
  cases dc <;> cases odc <;> simp [handleConnectionState, restarts]

/-- One `loop()` iteration: the connected flag is untouched, the latch ends equal to it, and
advertising is restarted exactly when the iteration finds the link down with the latch
still set. -/
theorem loop_spec (s : State) (frames : List CANfettiFrame) :
    (loop s frames).1.deviceConnected = s.deviceConnected ∧
    (loop s frames).1.oldDeviceConnected = s.deviceConnected ∧
    restarts (loop s frames).2 =
      (if s.deviceConnected = false ∧ s.oldDeviceConnected = true then 1 else 0) := by
  obtain ⟨a, b⟩ := processCanRx_conn frames s
  obtain ⟨c, d, e⟩ := handleConnectionState_spec (processCanRx s frames).1
  unfold loop
  dsimp only
  rw [restarts_append, restarts_out, Nat.zero_add, e, a, b, c, d, a]
  exact ⟨rfl, rfl, rfl⟩

/-- Loop iterations with no callback between them, started with the latch equal to the
connected flag, restart nothing and leave both flags as they are. -/
theorem loops_quiet (fl : List (List CANfettiFrame)) :
    ∀ s : State, s.oldDeviceConnected = s.deviceConnected →
      restarts (run s (fl.map Input.loopIter)).2 = 0 ∧
      (run s (fl.map Input.loopIter)).1.deviceConnected = s.deviceConnected ∧
      (run s (fl.map Input.loopIter)).1.oldDeviceConnected = s.deviceConnected := by
  induction fl with
  | nil => intro s h; exact ⟨rfl, rfl, h⟩
  | cons fs rest ih =>
    intro s h
    obtain ⟨a, b, c⟩ := loop_spec s fs
    have hq : restarts (loop s fs).2 = 0 := by
      rw [c, if_neg]
      rintro ⟨h1, h2⟩
      rw [h, h1] at h2
      cases h2
    obtain ⟨r1, r2, r3⟩ := ih (loop s fs).1 (by rw [a, b])
    rw [List.map_cons, run]
    show restarts ((loop s fs).2 ++ _) = 0 ∧ _
    rw [restarts_append, hq]
    exact ⟨by simpa using r1, r2.trans a, r3.trans a⟩

theorem requestWrite_conn (s : State) (v : List Nat) :
    (VarRequestCharCallbacks.onWrite s v).1.deviceConnected = s.deviceConnected ∧
    (VarRequestCharCallbacks.onWrite s v).1.oldDeviceConnected = s.oldDeviceConnected := by
  unfold VarRequestCharCallbacks.onWrite
  dsimp only
  split_ifs <;> exact ⟨rfl, rfl⟩

theorem buttonWrite_conn (s : State) (v : List Nat) :
    (ButtonCharCallbacks.onWrite s v).1.deviceConnected = s.deviceConnected ∧
    (ButtonCharCallbacks.onWrite s v).1.oldDeviceConnected = s.oldDeviceConnected := by
  unfold ButtonCharCallbacks.onWrite
  dsimp only
  split_ifs <;> exact ⟨rfl, rfl⟩

/-- Over every input sequence the advertising restarts are the falling edges of the
connected flag as the loop iterations sample it, starting from the latch. -/
theorem restarts_run (ins : List Input) :
    ∀ s : State, restarts (run s ins).2
      = fallingEdges s.oldDeviceConnected (sampled s.deviceConnected ins) := by
  induction ins with
  | nil => intro s; rfl
  | cons i rest ih =>
    intro s
    rw [run]
    show restarts ((step s i).2 ++ (run (step s i).1 rest).2) = _
    rw [restarts_append, ih]
    cases i with
    | connect =>
      show restarts [] + fallingEdges s.oldDeviceConnected (sampled true rest) = _
      rw [sampled]; simp [restarts]
    | disconnect =>
      show restarts [] + fallingEdges s.oldDeviceConnected (sampled false rest) = _
      rw [sampled]; simp [restarts]
    | buttonWrite v =>
      obtain ⟨a, b⟩ := buttonWrite_conn s v
      show restarts ((ButtonCharCallbacks.onWrite s v).2.map Action.out)
        + fallingEdges (ButtonCharCallbacks.onWrite s v).1.oldDeviceConnected
            (sampled (ButtonCharCallbacks.onWrite s v).1.deviceConnected rest) = _
      rw [restarts_out, a, b, sampled, Nat.zero_add]
    | requestWrite v =>
      obtain ⟨a, b⟩ := requestWrite_conn s v
      show restarts ((VarRequestCharCallbacks.onWrite s v).2.map Action.out)
        + fallingEdges (VarRequestCharCallbacks.onWrite s v).1.oldDeviceConnected
            (sampled (VarRequestCharCallbacks.onWrite s v).1.deviceConnected rest) = _
      rw [restarts_out, a, b, sampled, Nat.zero_add]
    | canFrame f =>
      obtain ⟨a, b⟩ := processCanFrame_conn s f
      show restarts ((processCanFrame s f).2.map Action.out)
        + fallingEdges (processCanFrame s f).1.oldDeviceConnected
            (sampled (processCanFrame s f).1.deviceConnected rest) = _
      rw [restarts_out, a, b, sampled, Nat.zero_add]
    | loopIter fs =>
      obtain ⟨a, b, c⟩ := loop_spec s fs
      show restarts (loop s fs).2
        + fallingEdges (loop s fs).1.oldDeviceConnected
            (sampled (loop s fs).1.deviceConnected rest) = _
      rw [c, a, b, sampled, fallingEdges]
      simp only [and_comm]

/-! ## The claims -/

/-- C1, as amended. A request write of `K = min (len / 4) 16` hashes on a connected
link, followed by frames of which `K` are accepted as responses (id 0x721, length at
least 8), ends with exactly one notification. Its payload has length `8 * K`, and slot `i`
holds the first eight data bytes of the `i`-th accepted frame, whatever hash that frame
carries: the hash field of slot `i` is the big-endian encoding of `pendingVarHashes[i]`
exactly when the `i`-th accepted frame carries that hash. -/
theorem C1_notification_slots (s : State) (w : List Nat) (fs : List CANfettiFrame)
    (hwf : s.WF) (hc : s.deviceConnected = true) (hp : s.pVarDataChar = true)
    (hlen : 4 ≤ w.length) (hfs : (fs.filter isVarResponse).length = min (w.length / 4) 16) :
    notifications (processCanRx (VarRequestCharCallbacks.onWrite s w).1 fs).2
      = [(fs.filter isVarResponse).flatMap payload8] ∧
    ((fs.filter isVarResponse).flatMap payload8).length = 8 * min (w.length / 4) 16 ∧
    ∀ (i : Nat) (f : CANfettiFrame), (fs.filter isVarResponse)[i]? = some f →
      slot ((fs.filter isVarResponse).flatMap payload8) i = payload8 f ∧
      ((slot ((fs.filter isVarResponse).flatMap payload8) i).take 4 =
          writeInt32BigEndian
            ((VarRequestCharCallbacks.onWrite s w).1.pendingVarHashes.getD i 0) ↔
        readInt32BigEndian (payload8 f) = hashAt w i) := by
  obtain ⟨H, _, hH, hP, _⟩ := write_progress s w hwf hc hp hlen
  have hall : ∀ f ∈ fs.filter isVarResponse, isVarResponse f = true :=
    fun f hf => (List.mem_filter.mp hf).2
  obtain ⟨_, hev⟩ := progress_complete H _ (fs.filter isVarResponse) 0 [] _ hP hall (by omega)
  refine ⟨?_, ?_, ?_⟩
  · rw [processCanRx_filter, hev, notifications_append, notifications_requests]
    rfl
  · rw [flatMap_payload8_length, hfs]
  · intro i f hi
    have hlt : i < min (w.length / 4) 16 := by
      rw [← hfs]
      exact (List.getElem?_eq_some_iff.mp hi).1
    have hs := slot_flatMap (fs.filter isVarResponse) i f hi
    refine ⟨hs, ?_⟩
    rw [hs, hP.2.2.1, hH i hlt]
    exact hash_field_iff f _ (hashAt_range w i).1 (hashAt_range w i).2

/-- C1, witness: two hashes, two responses with a foreign frame between them. -/
theorem C1_notification_slots_witness :
    State.connected.WF ∧
    notifications (processCanRx (VarRequestCharCallbacks.onWrite State.connected
        [0, 0, 0, 1, 0, 0, 0, 2]).1
      [respFrame [0, 0, 0, 1, 0, 0, 0, 5], ⟨0x100, 8, [1, 2, 3, 4, 5, 6, 7, 8]⟩,
        respFrame [0, 0, 0, 2, 0, 0, 0, 6]]).2
      = [[0, 0, 0, 1, 0, 0, 0, 5, 0, 0, 0, 2, 0, 0, 0, 6]] :=
  ⟨by decide,
    (C1_notification_slots State.connected [0, 0, 0, 1, 0, 0, 0, 2]
      [respFrame [0, 0, 0, 1, 0, 0, 0, 5], ⟨0x100, 8, [1, 2, 3, 4, 5, 6, 7, 8]⟩,
        respFrame [0, 0, 0, 2, 0, 0, 0, 6]]
      (by decide) rfl rfl (by decide) (by decide)).1⟩

/-- C1, counterexample to the claim as stated. On a connected link the write
`[00 00 00 01]` requests hash 1; the frame with id 0x721, length 8 and data
`[00 00 00 02 00 00 00 09]` is accepted without looking at its hash, completes the
batch, and is notified as it is: the hash field of slot 0 is `[0, 0, 0, 2]`, not the
encoding `[0, 0, 0, 1]` of `pendingVarHashes[0]`. -/
theorem C1_counterexample :
    State.connected.WF ∧ State.connected.deviceConnected = true ∧
    State.connected.pVarDataChar = true ∧
    isVarResponse (respFrame [0, 0, 0, 2, 0, 0, 0, 9]) = true ∧
    (VarRequestCharCallbacks.onWrite State.connected [0, 0, 0, 1]).1.pendingVarCount = 1 ∧
    (VarRequestCharCallbacks.onWrite State.connected [0, 0, 0, 1]).1.pendingVarHashes.getD 0 0
      = 1 ∧
    notifications (processCanRx (VarRequestCharCallbacks.onWrite State.connected [0, 0, 0, 1]).1
        [respFrame [0, 0, 0, 2, 0, 0, 0, 9]]).2 = [[0, 0, 0, 2, 0, 0, 0, 9]] ∧
    (slot [0, 0, 0, 2, 0, 0, 0, 9] 0).take 4 = [0, 0, 0, 2] ∧
    writeInt32BigEndian 1 = [0, 0, 0, 1] ∧
    (slot [0, 0, 0, 2, 0, 0, 0, 9] 0).take 4 ≠
      writeInt32BigEndian
        ((VarRequestCharCallbacks.onWrite State.connected
          [0, 0, 0, 1]).1.pendingVarHashes.getD 0 0) := by
  decide

/-- C2. A request write holding `K` complete hashes (`1 ≤ K ≤ 16`) on a connected link sends
the request for hash 0; with `K` accepted responses following, the step that processes
response number `i + 1` (frame index `i`, with `i + 1 < K`) sends exactly the request for
hash `i + 1`, the step that processes the last response sends no bus frame, and the bus
frames sent in total are the `K` requests for hash 0, ..., hash `K - 1` in write order. -/
theorem C2_requests_in_write_order (s : State) (w : List Nat) (fs : List CANfettiFrame)
    (K : Nat) (hwf : s.WF) (hc : s.deviceConnected = true) (hp : s.pVarDataChar = true)
    (hK : w.length / 4 = K) (hK1 : 1 ≤ K) (hK16 : K ≤ 16) (hfs : fs.length = K)
    (hall : ∀ f ∈ fs, isVarResponse f = true) :
    (VarRequestCharCallbacks.onWrite s w).2 = [Event.canTx (requestFrame (hashAt w 0))] ∧
    (∀ (i : Nat) (f : CANfettiFrame), fs[i]? = some f → i + 1 < K →
      (processCanFrame (processCanRx (VarRequestCharCallbacks.onWrite s w).1 (fs.take i)).1 f).2
        = [Event.canTx (requestFrame (hashAt w (i + 1)))]) ∧
    (∀ (f : CANfettiFrame), fs[K - 1]? = some f →
      busFrames
        (processCanFrame
          (processCanRx (VarRequestCharCallbacks.onWrite s w).1 (fs.take (K - 1))).1 f).2
        = []) ∧
    busFrames ((VarRequestCharCallbacks.onWrite s w).2 ++
        (processCanRx (VarRequestCharCallbacks.onWrite s w).1 fs).2)
      = (List.range K).map (fun i => requestFrame (hashAt w i)) := by
  have hlen : 4 ≤ w.length := by omega
  have hmin : min (w.length / 4) 16 = K := by omega
  obtain ⟨H, _, hH, hP, hev0⟩ := write_progress s w hwf hc hp hlen
  rw [hmin] at hP hH
  have htake : ∀ i, i < K → Progress H K i ([] ++ (fs.take i).flatMap payload8)
      (processCanRx (VarRequestCharCallbacks.onWrite s w).1 (fs.take i)).1 := by
    intro i hi
    have h := (progress_run H K (fs.take i) 0 [] _ hP
      (fun f hf => hall f (List.mem_of_mem_take hf))
      (by rw [List.length_take]; omega)).1
    have e : 0 + (fs.take i).length = i := by rw [List.length_take]; omega
    rw [e] at h
    exact h
  refine ⟨hev0, ?_, ?_, ?_⟩
  · intro i f hi hlt
    have hf : isVarResponse f = true := hall f (List.mem_iff_getElem?.mpr ⟨_, hi⟩)
    rw [(progress_step H K i _ _ f (htake i (by omega)) hf hlt).2, hH (i + 1) hlt]
  · intro f hi
    have hf : isVarResponse f = true := hall f (List.mem_iff_getElem?.mpr ⟨_, hi⟩)
    rw [(progress_last H K (K - 1) _ _ f (htake (K - 1) (by omega)) hf (by omega)).2.2]
    rfl
  · obtain ⟨_, hev⟩ := progress_complete H K fs 0 [] _ hP hall (by omega)
    rw [hev0, hev, busFrames_append, busFrames_append, busFrames_requests]
    have e0 : ∀ n, List.range (n + 1) = 0 :: List.range' 1 n := fun n => by
      rw [List.range_eq_range', List.range'_succ]
    have e : List.range K = 0 :: List.range' 1 (K - 1) := by
      have h := e0 (K - 1)
      rwa [Nat.sub_add_cancel hK1] at h
    rw [e, hfs]
    simp only [busFrames, List.map_cons, Nat.zero_add, List.append_nil, List.singleton_append,
      List.cons.injEq, true_and]
    apply List.map_congr_left
    intro i hi
    rw [List.mem_range'_1] at hi
    rw [hH i (by omega)]

/-- C2, witness: two hashes, two responses. -/
theorem C2_requests_in_write_order_witness :
    State.connected.WF ∧ ([0, 0, 0, 1, 0, 0, 0, 2] : List Nat).length / 4 = 2 ∧
    busFrames ((VarRequestCharCallbacks.onWrite State.connected [0, 0, 0, 1, 0, 0, 0, 2]).2 ++
      (processCanRx (VarRequestCharCallbacks.onWrite State.connected [0, 0, 0, 1, 0, 0, 0, 2]).1
        [respFrame [0, 0, 0, 1, 0, 0, 0, 5], respFrame [0, 0, 0, 2, 0, 0, 0, 6]]).2)
      = (List.range 2).map (fun i => requestFrame (hashAt [0, 0, 0, 1, 0, 0, 0, 2] i)) :=
  ⟨by decide, by decide,
    (C2_requests_in_write_order State.connected [0, 0, 0, 1, 0, 0, 0, 2]
      [respFrame [0, 0, 0, 1, 0, 0, 0, 5], respFrame [0, 0, 0, 2, 0, 0, 0, 6]] 2
      (by decide) rfl rfl (by decide) (by decide) (by decide) (by decide) (by decide)).2.2.2⟩

/-- C3. A request write of at least four bytes leaves `pendingVarCount = min (len / 4) 16`,
`pendingVarHashes[i]` the big-endian signed 32-bit value of bytes `4i .. 4i+3` for every
`i < pendingVarCount`, `pendingVarIndex = 0` and `batchResponseCount = 0`, and hands the bus
exactly one frame: the variable request for `pendingVarHashes[0]`. -/
theorem C3_request_write_effect (s : State) (w : List Nat) (hwf : s.WF)
    (hlen : 4 ≤ w.length) :
    (VarRequestCharCallbacks.onWrite s w).1.pendingVarCount = min (w.length / 4) 16 ∧
    (∀ i, i < (VarRequestCharCallbacks.onWrite s w).1.pendingVarCount →
      (VarRequestCharCallbacks.onWrite s w).1.pendingVarHashes.getD i 0
        = wrapInt32 (byteAt w (4 * i) * 2 ^ 24 + byteAt w (4 * i + 1) * 2 ^ 16
            + byteAt w (4 * i + 2) * 2 ^ 8 + byteAt w (4 * i + 3))) ∧
    (VarRequestCharCallbacks.onWrite s w).1.pendingVarIndex = 0 ∧
    (VarRequestCharCallbacks.onWrite s w).1.batchResponseCount = 0 ∧
    (VarRequestCharCallbacks.onWrite s w).2 =
      [Event.canTx { id := 0x701, len := 4,
                     buf := writeInt32BigEndian
                       ((VarRequestCharCallbacks.onWrite s w).1.pendingVarHashes.getD 0 0) }] := by
  obtain ⟨H, _, hH, h⟩ := VarRequestCharCallbacks.onWrite_spec s w hwf.1 hlen
  rw [h]
  refine ⟨rfl, ?_, rfl, rfl, ?_⟩
  · intro i hi
    show H.getD i 0 = _
    rw [hH i hi, hashAt, readInt32BigEndian_eq]
    simp only [byteAt_drop, Nat.add_zero]
  · show _ = [Event.canTx { id := 0x701, len := 4, buf := writeInt32BigEndian (H.getD 0 0) }]
    rw [hH 0 (by omega)]
    rfl

/-- C3, witness: nine bytes, two hashes (the second negative), one byte dropped. -/
theorem C3_request_write_effect_witness :
    State.connected.WF ∧ 4 ≤ ([0, 0, 0, 1, 0xFF, 0xFF, 0xFF, 0xFE, 7] : List Nat).length ∧
    (VarRequestCharCallbacks.onWrite State.connected
        [0, 0, 0, 1, 0xFF, 0xFF, 0xFF, 0xFE, 7]).1.pendingVarCount
      = min (([0, 0, 0, 1, 0xFF, 0xFF, 0xFF, 0xFE, 7] : List Nat).length / 4) 16 :=
  ⟨by decide, by decide,
    (C3_request_write_effect State.connected [0, 0, 0, 1, 0xFF, 0xFF, 0xFF, 0xFE, 7]
      (by decide) (by decide)).1⟩

/-- C4, as amended. From every state (a batch in Requesting with any number of stored
responses included), a request write of at least four bytes sets `batchResponseCount` and
`pendingVarIndex` to 0 and replaces the pending count and hashes by those of the write.
Whatever frames are drained afterwards, every notification is the concatenation of the
eight-byte payloads of a non-empty block of consecutive accepted frames that were
processed after the write, so no response stored before the write is ever notified. Frames
are not matched to requests: on a connected link the first `K = min (len / 4) 16` accepted
frames after the write, whatever requests they answer, form the one notification of the
new batch. -/
theorem C4_preemption (s : State) (w : List Nat) (fs : List CANfettiFrame) (hwf : s.WF)
    (hlen : 4 ≤ w.length) :
    (VarRequestCharCallbacks.onWrite s w).1.batchResponseCount = 0 ∧
    (VarRequestCharCallbacks.onWrite s w).1.pendingVarIndex = 0 ∧
    (VarRequestCharCallbacks.onWrite s w).1.pendingVarCount = min (w.length / 4) 16 ∧
    (∀ i, i < min (w.length / 4) 16 →
      (VarRequestCharCallbacks.onWrite s w).1.pendingVarHashes.getD i 0 = hashAt w i) ∧
    (∀ p ∈ notifications (processCanRx (VarRequestCharCallbacks.onWrite s w).1 fs).2,
      ∃ blk : List CANfettiFrame, blk ≠ [] ∧ blk <:+: fs.filter isVarResponse ∧
        p = blk.flatMap payload8) ∧
    (s.deviceConnected = true → s.pVarDataChar = true →
      (fs.filter isVarResponse).length = min (w.length / 4) 16 →
      notifications (processCanRx (VarRequestCharCallbacks.onWrite s w).1 fs).2
        = [(fs.filter isVarResponse).flatMap payload8]) := by
  obtain ⟨H, _, hH, h⟩ := VarRequestCharCallbacks.onWrite_spec s w hwf.1 hlen
  refine ⟨by rw [h], by rw [h], by rw [h], fun i hi => by rw [h]; exact hH i hi, ?_, ?_⟩
  · intro p hp
    have hK : 0 < min (w.length / 4) 16 := by omega
    have := notifications_are_blocks fs (VarRequestCharCallbacks.onWrite s w).1 []
      (by rw [h]; exact hwf.2) (by rw [h]) (by rw [h]; rfl) (by simp)
      (Or.inl (by rw [h]; exact ⟨hK, Nat.min_le_right _ _⟩)) p hp
    simpa using this
  · intro hc hp hfs
    rw [(batch_events s w fs hwf hc hp hlen hfs).2, notifications_append,
      notifications_requests]
    rfl

/-- C4, witness: a batch of three with two stored responses is preempted by a batch of
two, which is then answered. -/
theorem C4_preemption_witness :
    State.midBatch.WF ∧ State.midBatch.pendingVarIndex < State.midBatch.pendingVarCount ∧
    State.midBatch.batchResponseCount = 2 ∧
    (VarRequestCharCallbacks.onWrite State.midBatch
        [0, 0, 0, 20, 0, 0, 0, 21]).1.batchResponseCount = 0 ∧
    notifications (processCanRx
        (VarRequestCharCallbacks.onWrite State.midBatch [0, 0, 0, 20, 0, 0, 0, 21]).1
      [respFrame [0, 0, 0, 20, 3, 3, 3, 3], respFrame [0, 0, 0, 21, 4, 4, 4, 4]]).2
      = [[respFrame [0, 0, 0, 20, 3, 3, 3, 3], respFrame [0, 0, 0, 21, 4, 4, 4, 4]].flatMap
          payload8] :=
  ⟨by decide, by decide, by decide,
    (C4_preemption State.midBatch [0, 0, 0, 20, 0, 0, 0, 21]
      [respFrame [0, 0, 0, 20, 3, 3, 3, 3], respFrame [0, 0, 0, 21, 4, 4, 4, 4]]
      (by decide) (by decide)).1,
    (C4_preemption State.midBatch [0, 0, 0, 20, 0, 0, 0, 21]
      [respFrame [0, 0, 0, 20, 3, 3, 3, 3], respFrame [0, 0, 0, 21, 4, 4, 4, 4]]
      (by decide) (by decide)).2.2.2.2.2 rfl rfl (by decide)⟩

/-- C4, counterexample to the claim as stated. The batch `[10, 11, 12]` has two responses
stored and the request for hash 12 outstanding when the write `[20, 21]` preempts it. The
answer to the old request (a frame carrying hash 12) arrives after the write, is taken
as the first response of the new batch, and is notified together with the answer for
hash 20: the first notification is `[00 00 00 0C 09 09 09 09][00 00 00 14 03 03 03 03]`,
an entry of the superseded batch next to an entry of the new one. -/
theorem C4_counterexample :
    State.midBatch.WF ∧ State.midBatch.deviceConnected = true ∧
    State.midBatch.pVarDataChar = true ∧
    State.midBatch.pendingVarIndex < State.midBatch.pendingVarCount ∧
    State.midBatch.pendingVarHashes.getD State.midBatch.pendingVarIndex 0 = 12 ∧
    (VarRequestCharCallbacks.onWrite State.midBatch
        [0, 0, 0, 20, 0, 0, 0, 21]).1.pendingVarCount = 2 ∧
    (VarRequestCharCallbacks.onWrite State.midBatch
        [0, 0, 0, 20, 0, 0, 0, 21]).1.pendingVarHashes.take 2 = [20, 21] ∧
    readInt32BigEndian (payload8 (respFrame [0, 0, 0, 12, 9, 9, 9, 9])) = 12 ∧
    notifications (processCanRx
        (VarRequestCharCallbacks.onWrite State.midBatch [0, 0, 0, 20, 0, 0, 0, 21]).1
      [respFrame [0, 0, 0, 12, 9, 9, 9, 9], respFrame [0, 0, 0, 20, 3, 3, 3, 3],
        respFrame [0, 0, 0, 21, 4, 4, 4, 4]]).2
      = [[0, 0, 0, 12, 9, 9, 9, 9, 0, 0, 0, 20, 3, 3, 3, 3], [0, 0, 0, 21, 4, 4, 4, 4]] := by
  decide

/-- C5, as amended. For the response frame that would complete a batch
(`pendingVarIndex + 1 = pendingVarCount`): when the link is down or the notify handle is
missing the frame is not processed at all, so nothing is notified, nothing is sent and the
batch state keeps its values (it is not reset); when the device is connected with a valid
handle the step ends with `pendingVarCount = pendingVarIndex = batchResponseCount = 0` and
sends no bus frame. -/
theorem C5_reset_only_when_connected (s : State) (f : CANfettiFrame)
    (hf : isVarResponse f = true) (hfinal : s.pendingVarIndex + 1 = s.pendingVarCount)
    (h16 : s.pendingVarCount ≤ 16) :
    ((s.deviceConnected = false ∨ s.pVarDataChar = false) →
      processCanFrame s f = (s, [])) ∧
    ((s.deviceConnected = true ∧ s.pVarDataChar = true) →
      (processCanFrame s f).1.pendingVarCount = 0 ∧
      (processCanFrame s f).1.pendingVarIndex = 0 ∧
      (processCanFrame s f).1.batchResponseCount = 0 ∧
      busFrames (processCanFrame s f).2 = []) := by
  refine ⟨fun h => processCanFrame_ignored s f (Or.inr h), ?_⟩
  rintro ⟨hc, hp⟩
  have hf2 : f.id = CAN_VAR_RESPONSE_BASE + ECU_ID ∧ f.len ≥ 8 := by
    simpa [isVarResponse] using hf
  have hm : (s.pendingVarIndex + 1) % 256 = s.pendingVarCount := by
    rw [hfinal]; exact Nat.mod_eq_of_lt (by omega)
  unfold processCanFrame
  rw [if_pos hf2, if_pos ⟨hc, hp⟩]
  by_cases hb : s.batchResponseCount < MAX_BATCH_VARS
  · simp only [if_pos hb, hm, lt_self_iff_false, if_false, true_and]
    split <;> rfl
  · simp only [if_neg hb, hm, lt_self_iff_false, if_false, true_and]
    split <;> rfl

/-- C5, witness: the stalled batch (link down), and the connected batch of three at its
last response. -/
theorem C5_reset_only_when_connected_witness :
    (isVarResponse (respFrame [0, 0, 0, 1, 0, 0, 0, 9]) = true ∧
      State.stalled.pendingVarIndex + 1 = State.stalled.pendingVarCount ∧
      State.stalled.deviceConnected = false ∧
      processCanFrame State.stalled (respFrame [0, 0, 0, 1, 0, 0, 0, 9])
        = (State.stalled, [])) ∧
    (State.midBatch.pendingVarIndex + 1 = State.midBatch.pendingVarCount ∧
      State.midBatch.deviceConnected = true ∧
      (processCanFrame State.midBatch (respFrame [0, 0, 0, 12, 3, 3, 3, 3])).1.pendingVarCount
        = 0) :=
  ⟨⟨by decide, by decide, rfl,
      (C5_reset_only_when_connected State.stalled (respFrame [0, 0, 0, 1, 0, 0, 0, 9])
        (by decide) (by decide) (by decide)).1 (Or.inl rfl)⟩,
    ⟨by decide, rfl,
      ((C5_reset_only_when_connected State.midBatch (respFrame [0, 0, 0, 12, 3, 3, 3, 3])
        (by decide) (by decide) (by decide)).2 ⟨rfl, rfl⟩).1⟩⟩

/-- C5, counterexample to the claim as stated. With the link down and a batch of one hash
awaiting its response, the response frame (id 0x721, length 8) that would complete the
batch is ignored: the state is unchanged, so `pendingVarCount` is still 1, not 0. -/
theorem C5_counterexample :
    State.stalled.deviceConnected = false ∧
    isVarResponse (respFrame [0, 0, 0, 1, 0, 0, 0, 9]) = true ∧
    State.stalled.pendingVarIndex + 1 = State.stalled.pendingVarCount ∧
    processCanFrame State.stalled (respFrame [0, 0, 0, 1, 0, 0, 0, 9]) = (State.stalled, []) ∧
    (processCanFrame State.stalled (respFrame [0, 0, 0, 1, 0, 0, 0, 9])).1.pendingVarCount = 1 ∧
    ¬ (processCanFrame State.stalled (respFrame [0, 0, 0, 1, 0, 0, 0, 9])).1.pendingVarCount
        = 0 := by
  decide

/-- C6. A frame whose id is not 0x721 or whose length is below 8 leaves the whole state
unchanged (pending hashes, count, index, response buffer and count included) and produces
neither a bus request nor a notification, from every state. -/
theorem C6_other_frames_ignored (s : State) (f : CANfettiFrame)
    (h : f.id ≠ 0x721 ∨ f.len < 8) :
    processCanFrame s f = (s, []) ∧ processCanRx s [f] = (s, []) := by
  have hf : isVarResponse f = false := by
    simp only [isVarResponse, decide_eq_false_iff_not, not_and_or, CAN_VAR_RESPONSE_BASE,
      ECU_ID]
    rcases h with h | h
    · exact Or.inl h
    · exact Or.inr (by omega)
  have h1 := processCanFrame_ignored s f (Or.inl hf)
  exact ⟨h1, by rw [processCanRx_single, h1]⟩

/-- C6, witness: a frame with id 0x720 arriving in the middle of a batch. -/
theorem C6_other_frames_ignored_witness :
    ((⟨0x720, 8, [0, 0, 0, 1, 0, 0, 0, 9]⟩ : CANfettiFrame).id ≠ 0x721 ∨
      (⟨0x720, 8, [0, 0, 0, 1, 0, 0, 0, 9]⟩ : CANfettiFrame).len < 8) ∧
    processCanRx State.midBatch [⟨0x720, 8, [0, 0, 0, 1, 0, 0, 0, 9]⟩] = (State.midBatch, []) :=
  ⟨by decide, (C6_other_frames_ignored State.midBatch ⟨0x720, 8, [0, 0, 0, 1, 0, 0, 0, 9]⟩
    (by decide)).2⟩

/-- C7. Round trip of the big-endian codec: reading the four bytes written for a 32-bit
signed `v` gives `v`, and writing the value read from four bytes gives those bytes. -/
theorem C7_codec_round_trip (v : Int) (b0 b1 b2 b3 : Nat) (hlo : -2 ^ 31 ≤ v)
    (hhi : v < 2 ^ 31) (h0 : b0 < 256) (h1 : b1 < 256) (h2 : b2 < 256) (h3 : b3 < 256) :
    readInt32BigEndian (writeInt32BigEndian v) = v ∧
    writeInt32BigEndian (readInt32BigEndian [b0, b1, b2, b3]) = [b0, b1, b2, b3] :=
  ⟨read_write v hlo hhi, write_read b0 b1 b2 b3 h0 h1 h2 h3⟩

/-- C7, witness: a negative value and a byte sequence with the sign bit set. -/
theorem C7_codec_round_trip_witness :
    readInt32BigEndian (writeInt32BigEndian (-2)) = -2 ∧
    writeInt32BigEndian (readInt32BigEndian [0x80, 0, 0xFF, 1]) = [0x80, 0, 0xFF, 1] :=
  C7_codec_round_trip (-2) 0x80 0 0xFF 1 (by decide) (by decide) (by decide) (by decide)
    (by decide) (by decide)

/-- C8. The call `requestCanVariable h` hands the bus exactly one frame, with id 0x701, data
length 4 and data bytes `[b0, b1, b2, b3]` such that
`b0 * 2^24 + b1 * 2^16 + b2 * 2^8 + b3 = h mod 2^32`. -/
theorem C8_request_frame (h : Int) :
    ∃ b0 b1 b2 b3 : Nat,
      requestCanVariable h = [Event.canTx { id := 0x701, len := 4, buf := [b0, b1, b2, b3] }] ∧
      b0 < 256 ∧ b1 < 256 ∧ b2 < 256 ∧ b3 < 256 ∧
      ((b0 * 2 ^ 24 + b1 * 2 ^ 16 + b2 * 2 ^ 8 + b3 : Nat) : Int) = h % 2 ^ 32 := by
  refine ⟨((h / 2 ^ 24) % 256).toNat, ((h / 2 ^ 16) % 256).toNat, ((h / 2 ^ 8) % 256).toNat,
    (h % 256).toNat, ?_, by omega, by omega, by omega, by omega, by omega⟩
  rw [requestCanVariable_eq, requestFrame, writeInt32BigEndian_eq]

/-- C9. For a 16-bit mask `m`, `sendButtonCanFrame m` hands the bus exactly one frame, with
id 0x711, data length 5 and data `[0x5A, 0x00, 27, m >> 8, m & 0xFF]`, and the mask is
recovered as `payload[3] * 256 + payload[4]`. -/
theorem C9_button_frame (m : Nat) (hm : m < 2 ^ 16) :
    sendButtonCanFrame m =
      [Event.canTx { id := 0x711, len := 5, buf := [0x5A, 0x00, 27, m >>> 8, m &&& 0xFF] }] ∧
    (m >>> 8) * 256 + (m &&& 0xFF) = m := by
  have e1 : m >>> 8 = m / 256 := Nat.shiftRight_eq_div_pow m 8
  have e2 : m &&& 0xFF = m % 256 := by
    have h := Nat.and_pow_two_sub_one_eq_mod m 8
    norm_num at h
    exact h
  have e3 : ((m >>> 8) &&& 0xFF) % 256 = m >>> 8 := by
    rw [and_ff, e1]; omega
  have e4 : (m &&& 0xFF) % 256 = m &&& 0xFF := by
    rw [and_ff, e2]
  constructor
  · unfold sendButtonCanFrame
    simp only [e3, e4]
    rfl
  · rw [e1, e2]; omega

/-- C9, witness: the mask 0x1234. -/
theorem C9_button_frame_witness :
    0x1234 < 2 ^ 16 ∧
    sendButtonCanFrame 0x1234 =
      [Event.canTx { id := 0x711, len := 5, buf := [0x5A, 0x00, 27, 0x12, 0x34] }] :=
  ⟨by decide, (C9_button_frame 0x1234 (by decide)).1⟩

/-- C10. Two consecutive button writes of non-zero length with equal resulting masks: the
second sends nothing and leaves the state (so `lastButtonMask`) unchanged, and the two
together hand the bus at most one frame. The masks are the ones the code computes, a
one-byte index of 32 or more included (there the shift count wraps modulo 32). -/
theorem C10_button_idempotence (s : State) (v1 v2 : List Nat) (h1 : v1.length ≠ 0)
    (h2 : v2.length ≠ 0) (hm : buttonMaskOf v1 = buttonMaskOf v2) :
    (ButtonCharCallbacks.onWrite (ButtonCharCallbacks.onWrite s v1).1 v2).2 = [] ∧
    (ButtonCharCallbacks.onWrite (ButtonCharCallbacks.onWrite s v1).1 v2).1
      = (ButtonCharCallbacks.onWrite s v1).1 ∧
    (busFrames ((ButtonCharCallbacks.onWrite s v1).2 ++
        (ButtonCharCallbacks.onWrite (ButtonCharCallbacks.onWrite s v1).1 v2).2)).length
      ≤ 1 := by
  have hsome : ∃ m, buttonMaskOf v1 = some m := by
    unfold buttonMaskOf
    by_cases ha : v1.length ≥ 2
    · exact ⟨_, if_pos ha⟩
    · have hb : v1.length = 1 := by omega
      rw [if_neg ha, if_pos hb]
      exact ⟨_, rfl⟩
  obtain ⟨m, hm1⟩ := hsome
  have hm2 : buttonMaskOf v2 = some m := by rw [← hm, hm1]
  have hfirst : (ButtonCharCallbacks.onWrite s v1).1.lastButtonMask = m ∧
      (busFrames (ButtonCharCallbacks.onWrite s v1).2).length ≤ 1 := by
    rw [ButtonCharCallbacks.onWrite_some s v1 m hm1]
    by_cases hc : m ≠ s.lastButtonMask
    · rw [if_pos hc]
      exact ⟨rfl, by simp [sendButtonCanFrame, busFrames]⟩
    · rw [if_neg hc]
      exact ⟨(not_not.mp hc).symm, by simp [busFrames]⟩
  have hsecond : ButtonCharCallbacks.onWrite (ButtonCharCallbacks.onWrite s v1).1 v2 = ((ButtonCharCallbacks.onWrite s v1).1, []) := by
    rw [ButtonCharCallbacks.onWrite_some (ButtonCharCallbacks.onWrite s v1).1 v2 m hm2]
    simp only [hfirst.1, ne_eq, not_true_eq_false, if_false]
  rw [hsecond]
  exact ⟨rfl, rfl, by simpa using hfirst.2⟩

/-- C10, witness: index 35, which selects bit 3 like index 3, then index 3. -/
theorem C10_button_idempotence_witness :
    ([35] : List Nat).length ≠ 0 ∧ ([3] : List Nat).length ≠ 0 ∧
    buttonMaskOf [35] = buttonMaskOf [3] ∧
    (ButtonCharCallbacks.onWrite (ButtonCharCallbacks.onWrite State.connected [35]).1
      [3]).2 = [] :=
  ⟨by decide, by decide, by decide,
    (C10_button_idempotence State.connected [35] [3] (by decide) (by decide) (by decide)).1⟩

/-- C11. A valid button write (one byte holding an index 0..15, or at least two bytes) has a
resulting mask `m` below `2^16`. If `m` differs from `lastButtonMask`, the write sets
`lastButtonMask` to `m` and hands the bus exactly one frame, the button frame carrying `m`
(id 0x711, data `[0x5A, 0x00, 27, m / 256, m % 256]`); if `m` equals `lastButtonMask`, it
changes nothing and transmits nothing. -/
theorem C11_button_write_effect (s : State) (v : List Nat)
    (hvalid : (v.length = 1 ∧ byteAt v 0 ≤ 15) ∨ 2 ≤ v.length) :
    ∃ m, buttonMaskOf v = some m ∧ m < 2 ^ 16 ∧
      (m ≠ s.lastButtonMask →
        (ButtonCharCallbacks.onWrite s v).1 = { s with lastButtonMask := m } ∧
        (ButtonCharCallbacks.onWrite s v).2 =
          [Event.canTx { id := 0x711, len := 5, buf := [0x5A, 0x00, 27, m / 256, m % 256] }] ∧
        (m / 256) * 256 + m % 256 = m) ∧
      (m = s.lastButtonMask → ButtonCharCallbacks.onWrite s v = (s, [])) := by
  obtain ⟨m, hm⟩ := buttonMaskOf_isSome v (by omega)
  refine ⟨m, hm, buttonMaskOf_lt v m hm, ?_, ?_⟩
  · intro hne
    rw [ButtonCharCallbacks.onWrite_some s v m hm, if_pos hne]
    exact ⟨rfl, sendButtonCanFrame_eq m (buttonMaskOf_lt v m hm), by omega⟩
  · intro he
    rw [ButtonCharCallbacks.onWrite_some s v m hm, if_neg (by simpa using he)]

/-- C11, witness, the example of the claim: from `lastButtonMask = 0` the write `[0x03]`
sends one frame with mask 0x0008, the same write again sends nothing, and `[0x05]` then
sends one frame with mask 0x0020. -/
theorem C11_button_write_effect_witness :
    buttonMaskOf [0x03] = some 0x0008 ∧ buttonMaskOf [0x05] = some 0x0020 ∧
    State.init.lastButtonMask = 0 ∧
    (ButtonCharCallbacks.onWrite State.init [0x03]).2 =
      [Event.canTx { id := 0x711, len := 5, buf := [0x5A, 0x00, 27, 0x00, 0x08] }] ∧
    (ButtonCharCallbacks.onWrite (ButtonCharCallbacks.onWrite State.init [0x03]).1 [0x03]).2
      = [] ∧
    (ButtonCharCallbacks.onWrite
      (ButtonCharCallbacks.onWrite (ButtonCharCallbacks.onWrite State.init [0x03]).1
        [0x03]).1 [0x05]).2 =
      [Event.canTx { id := 0x711, len := 5, buf := [0x5A, 0x00, 27, 0x00, 0x20] }] := by
  refine ⟨by decide, by decide, rfl, ?_, ?_, ?_⟩
  · obtain ⟨m, hm, _, h1, _⟩ := C11_button_write_effect State.init [0x03] (by decide)
    have e : m = 0x0008 := by
      have h : buttonMaskOf [0x03] = some 0x0008 := by decide
      rw [h] at hm; exact (Option.some.inj hm).symm
    subst e
    exact (h1 (by decide)).2.1
  · decide
  · decide

/-- C12. Mask decoding in the button write: a one-byte write holding an index `i ≤ 15`
computes the mask `2^i`, whose only set bit is bit `i`; a write of at least two bytes
computes `byte[0] + 256 * byte[1]`, whatever bytes follow the second. In both cases the
write then acts on that mask. -/
theorem C12_mask_decoding (s : State) (i b0 b1 : Nat) (rest : List Nat) (hi : i ≤ 15)
    (h0 : b0 < 256) (h1 : b1 < 256) :
    (buttonMaskOf [i] = some (2 ^ i) ∧
      (∀ j, (2 ^ i).testBit j = decide (i = j)) ∧
      ButtonCharCallbacks.onWrite s [i] =
        if 2 ^ i ≠ s.lastButtonMask then
          ({ s with lastButtonMask := 2 ^ i }, sendButtonCanFrame (2 ^ i))
        else (s, [])) ∧
    (buttonMaskOf (b0 :: b1 :: rest) = some (b0 + 256 * b1) ∧
      ButtonCharCallbacks.onWrite s (b0 :: b1 :: rest) =
        if b0 + 256 * b1 ≠ s.lastButtonMask then
          ({ s with lastButtonMask := b0 + 256 * b1 }, sendButtonCanFrame (b0 + 256 * b1))
        else (s, [])) :=
  ⟨⟨buttonMaskOf_index i hi, fun _ => Nat.testBit_two_pow,
      ButtonCharCallbacks.onWrite_some s [i] _ (buttonMaskOf_index i hi)⟩,
    ⟨buttonMaskOf_pair b0 b1 rest h0 h1,
      ButtonCharCallbacks.onWrite_some s _ _ (buttonMaskOf_pair b0 b1 rest h0 h1)⟩⟩

/-- C12, witness: index 15, and the bytes `34 12` followed by two more. -/
theorem C12_mask_decoding_witness :
    buttonMaskOf [15] = some 0x8000 ∧
    buttonMaskOf [0x34, 0x12, 0xFF, 0xFF] = some 0x1234 :=
  ⟨(C12_mask_decoding State.init 15 0x34 0x12 [0xFF, 0xFF] (by decide) (by decide)
      (by decide)).1.1,
    (C12_mask_decoding State.init 15 0x34 0x12 [0xFF, 0xFF] (by decide) (by decide)
      (by decide)).2.1⟩

/-- C13. A button write of no bytes, and a request write of fewer than four bytes, leave the
whole state unchanged and produce no bus frame and no notification, from every state. -/
theorem C13_malformed_writes_dropped (s : State) (v : List Nat) (hv : v.length ≤ 3) :
    ButtonCharCallbacks.onWrite s [] = (s, []) ∧
    VarRequestCharCallbacks.onWrite s v = (s, []) := by
  constructor
  · rfl
  · unfold VarRequestCharCallbacks.onWrite
    simp only [ge_iff_le]
    rw [if_neg (by omega)]

/-- C13, witness: both writes arriving in the middle of a batch. -/
theorem C13_malformed_writes_dropped_witness :
    ([0, 0, 1] : List Nat).length ≤ 3 ∧
    State.midBatch.pendingVarIndex < State.midBatch.pendingVarCount ∧
    ButtonCharCallbacks.onWrite State.midBatch [] = (State.midBatch, []) ∧
    VarRequestCharCallbacks.onWrite State.midBatch [0, 0, 1] = (State.midBatch, []) :=
  ⟨by decide, by decide,
    (C13_malformed_writes_dropped State.midBatch [0, 0, 1] (by decide)).1,
    (C13_malformed_writes_dropped State.midBatch [0, 0, 1] (by decide)).2⟩

/-- C14, as amended. After the request write of the hashes 1 and 2 on a connected link,
with the two responses `[big-endian hash][big-endian value]` for values `v1` and `v2`,
the single notification is `[00 00 00 01 V V V V][00 00 00 02 W W W W]`: the hash fields
are the big-endian bytes the responses carried, copied unchanged. -/
theorem C14_example_notification (s : State) (v1 v2 : Int) (hwf : s.WF)
    (hc : s.deviceConnected = true) (hp : s.pVarDataChar = true) :
    notifications
      (processCanRx (VarRequestCharCallbacks.onWrite s [0, 0, 0, 1, 0, 0, 0, 2]).1
        [respFrame (writeInt32BigEndian 1 ++ writeInt32BigEndian v1),
          respFrame (writeInt32BigEndian 2 ++ writeInt32BigEndian v2)]).2
      = [[0, 0, 0, 1] ++ writeInt32BigEndian v1 ++ ([0, 0, 0, 2] ++ writeInt32BigEndian v2)] := by
  have e : List.filter isVarResponse
      [respFrame (writeInt32BigEndian 1 ++ writeInt32BigEndian v1),
        respFrame (writeInt32BigEndian 2 ++ writeInt32BigEndian v2)]
      = [respFrame (writeInt32BigEndian 1 ++ writeInt32BigEndian v1),
        respFrame (writeInt32BigEndian 2 ++ writeInt32BigEndian v2)] := by
    rw [List.filter_cons_of_pos (isVarResponse_respFrame _),
      List.filter_cons_of_pos (isVarResponse_respFrame _), List.filter_nil]
  have h := (batch_events s [0, 0, 0, 1, 0, 0, 0, 2]
    [respFrame (writeInt32BigEndian 1 ++ writeInt32BigEndian v1),
      respFrame (writeInt32BigEndian 2 ++ writeInt32BigEndian v2)] hwf hc hp (by decide)
    (by rw [e]; simp)).2
  rw [h, notifications_append, notifications_requests, e]
  simp only [List.flatMap_cons, List.flatMap_nil, List.append_nil, payload8_respFrame_pair,
    List.nil_append, notifications]
  have w1 : writeInt32BigEndian 1 = [0, 0, 0, 1] := by decide
  have w2 : writeInt32BigEndian 2 = [0, 0, 0, 2] := by decide
  rw [w1, w2]

/-- C14, witness: values 5 and -2. -/
theorem C14_example_notification_witness :
    State.connected.WF ∧
    notifications
      (processCanRx
        (VarRequestCharCallbacks.onWrite State.connected [0, 0, 0, 1, 0, 0, 0, 2]).1
        [respFrame (writeInt32BigEndian 1 ++ writeInt32BigEndian 5),
          respFrame (writeInt32BigEndian 2 ++ writeInt32BigEndian (-2))]).2
      = [[0, 0, 0, 1] ++ writeInt32BigEndian 5 ++ ([0, 0, 0, 2] ++ writeInt32BigEndian (-2))] :=
  ⟨by decide, C14_example_notification State.connected 5 (-2) (by decide) rfl rfl⟩

/-- C14, counterexample to the claim as stated. With values 5 and 6 the notification is
`[00 00 00 01 00 00 00 05][00 00 00 02 00 00 00 06]`; it is not
`[01 00 00 00 00 00 00 05][02 00 00 00 00 00 00 06]`. -/
theorem C14_counterexample :
    writeInt32BigEndian 1 = [0, 0, 0, 1] ∧ writeInt32BigEndian 2 = [0, 0, 0, 2] ∧
    writeInt32BigEndian 5 = [0, 0, 0, 5] ∧ writeInt32BigEndian 6 = [0, 0, 0, 6] ∧
    (VarRequestCharCallbacks.onWrite State.connected [0, 0, 0, 1, 0, 0, 0, 2]).1.pendingVarCount
      = 2 ∧
    (VarRequestCharCallbacks.onWrite State.connected
      [0, 0, 0, 1, 0, 0, 0, 2]).1.pendingVarHashes.take 2 = [1, 2] ∧
    notifications
      (processCanRx
        (VarRequestCharCallbacks.onWrite State.connected [0, 0, 0, 1, 0, 0, 0, 2]).1
        [respFrame [0, 0, 0, 1, 0, 0, 0, 5], respFrame [0, 0, 0, 2, 0, 0, 0, 6]]).2
      = [[0, 0, 0, 1, 0, 0, 0, 5, 0, 0, 0, 2, 0, 0, 0, 6]] ∧
    notifications
      (processCanRx
        (VarRequestCharCallbacks.onWrite State.connected [0, 0, 0, 1, 0, 0, 0, 2]).1
        [respFrame [0, 0, 0, 1, 0, 0, 0, 5], respFrame [0, 0, 0, 2, 0, 0, 0, 6]]).2
      ≠ [[1, 0, 0, 0, 0, 0, 0, 5, 2, 0, 0, 0, 0, 0, 0, 6]] := by
  decide

/-- C15. In every state reached from the initial state (after `setup()`, or before it) by any
sequence of connect and disconnect callbacks, button writes, request writes, processed bus
frames and loop iterations: `pendingVarCount ≤ 16`, `pendingVarIndex ≤ pendingVarCount` and
`batchResponseCount = pendingVarIndex`. -/
theorem C15_state_invariant (ins : List Input) :
    ((run State.init ins).1.pendingVarCount ≤ 16 ∧
      (run State.init ins).1.pendingVarIndex ≤ (run State.init ins).1.pendingVarCount ∧
      (run State.init ins).1.batchResponseCount = (run State.init ins).1.pendingVarIndex) ∧
    ((run State.boot ins).1.pendingVarCount ≤ 16 ∧
      (run State.boot ins).1.pendingVarIndex ≤ (run State.boot ins).1.pendingVarCount ∧
      (run State.boot ins).1.batchResponseCount = (run State.boot ins).1.pendingVarIndex) := by
  obtain ⟨_, a1, a2, a3⟩ := batchInv_run ins State.init batchInv_init
  obtain ⟨_, b1, b2, b3⟩ := batchInv_run ins State.boot batchInv_boot
  exact ⟨⟨a1, by omega, a2⟩, ⟨b1, by omega, b2⟩⟩

/-- C16, as amended. The falling edge is found by polling. A loop iteration leaves
`deviceConnected` alone, ends with `oldDeviceConnected = deviceConnected`, and restarts
advertising exactly when it finds `deviceConnected` false with `oldDeviceConnected` true.
So over every input sequence the number of restarts is the number of falling edges of
`deviceConnected` as the loop iterations sample it, starting from the latch. In
particular: a disconnect of a link that a loop iteration has seen connected (latch set),
followed directly by loop iterations, causes exactly one restart and ends with both flags
false; a loop iteration that finds a new connection only sets the latch, restarts
nothing, and neither do the iterations after it; a connection made and dropped between
two loop iterations causes no restart; and a disconnect followed by a connect before the
next loop iteration causes no restart either. -/
theorem C16_falling_edge_by_polling (s : State) (ins : List Input)
    (frames : List CANfettiFrame) (fl : List (List CANfettiFrame)) :
    ((loop s frames).1.deviceConnected = s.deviceConnected ∧
      (loop s frames).1.oldDeviceConnected = s.deviceConnected ∧
      restarts (loop s frames).2 =
        (if s.deviceConnected = false ∧ s.oldDeviceConnected = true then 1 else 0)) ∧
    restarts (run s ins).2
      = fallingEdges s.oldDeviceConnected (sampled s.deviceConnected ins) ∧
    (s.deviceConnected = true → s.oldDeviceConnected = true →
      restarts (run (MyServerCallbacks.onDisconnect s)
          ((frames :: fl).map Input.loopIter)).2 = 1 ∧
      (run (MyServerCallbacks.onDisconnect s)
          ((frames :: fl).map Input.loopIter)).1.deviceConnected = false ∧
      (run (MyServerCallbacks.onDisconnect s)
          ((frames :: fl).map Input.loopIter)).1.oldDeviceConnected = false) ∧
    (s.deviceConnected = true → s.oldDeviceConnected = false →
      (loop s frames).1.oldDeviceConnected = true ∧ restarts (loop s frames).2 = 0 ∧
      restarts (run (loop s frames).1 (fl.map Input.loopIter)).2 = 0) ∧
    (s.deviceConnected = false → s.oldDeviceConnected = false →
      restarts (run s (Input.connect :: Input.disconnect :: fl.map Input.loopIter)).2 = 0) ∧
    (s.deviceConnected = true → s.oldDeviceConnected = true →
      restarts (run s (Input.disconnect :: Input.connect :: fl.map Input.loopIter)).2
        = 0) := by
  refine ⟨loop_spec s frames, restarts_run ins s, ?_, ?_, ?_, ?_⟩
  · intro _ hold
    obtain ⟨a, b, c⟩ := loop_spec (MyServerCallbacks.onDisconnect s) frames
    have hd : (MyServerCallbacks.onDisconnect s).deviceConnected = false := rfl
    have ho : (MyServerCallbacks.onDisconnect s).oldDeviceConnected = true := hold
    rw [if_pos ⟨hd, ho⟩] at c
    rw [hd] at a b
    obtain ⟨r1, r2, r3⟩ := loops_quiet fl (loop (MyServerCallbacks.onDisconnect s) frames).1
      (by rw [a, b])
    rw [List.map_cons, run]
    show restarts ((loop (MyServerCallbacks.onDisconnect s) frames).2 ++ _) = 1 ∧ _
    rw [restarts_append, c]
    exact ⟨by simpa using r1, r2.trans a, r3.trans a⟩
  · intro hdc hold
    obtain ⟨a, b, c⟩ := loop_spec s frames
    have hq : restarts (loop s frames).2 = 0 := by
      rw [c, if_neg]
      rintro ⟨h1, _⟩
      rw [hdc] at h1
      cases h1
    exact ⟨b.trans hdc, hq, (loops_quiet fl (loop s frames).1 (by rw [a, b])).1⟩
  · intro _ hold
    have h := (loops_quiet fl
      (MyServerCallbacks.onDisconnect (MyServerCallbacks.onConnect s)) hold).1
    rw [run, run]
    show restarts ([] ++ ([] ++ _)) = 0
    simpa using h
  · intro _ hold
    have h := (loops_quiet fl
      (MyServerCallbacks.onConnect (MyServerCallbacks.onDisconnect s)) hold).1
    rw [run, run]
    show restarts ([] ++ ([] ++ _)) = 0
    simpa using h

/-- C16, witness: connect, one loop iteration, disconnect, three loop iterations; and the
same with a reconnect before the next loop iteration. -/
theorem C16_falling_edge_by_polling_witness :
    State.connected.deviceConnected = true ∧ State.connected.oldDeviceConnected = false ∧
    (loop State.connected []).1.oldDeviceConnected = true ∧
    restarts (run (MyServerCallbacks.onDisconnect (loop State.connected []).1)
        (([] :: [[], []]).map Input.loopIter)).2 = 1 ∧
    restarts (run (loop State.connected []).1
        (Input.disconnect :: Input.connect :: ([[], [], []]).map Input.loopIter)).2 = 0 :=
  ⟨rfl, rfl,
    ((C16_falling_edge_by_polling State.connected [] [] []).2.2.2.1 rfl rfl).1,
    ((C16_falling_edge_by_polling (loop State.connected []).1 [] [] [[], []]).2.2.1
      (by decide) (by decide)).1,
    (C16_falling_edge_by_polling (loop State.connected []).1 [] [] [[], [], []]).2.2.2.2.2
      (by decide) (by decide)⟩

/-- C16, counterexample to the claim as stated. From the state after `setup()`: a connect
callback, then a disconnect callback before any loop iteration has run, then three loop
iterations. The link was connected and dropped, yet no iteration restarts advertising: the
latch never saw the connection. Likewise connect, loop, disconnect, connect, then three
loop iterations: the link seen connected is dropped, and nothing is restarted. -/
theorem C16_counterexample :
    (run State.init [Input.connect]).1.deviceConnected = true ∧
    (run State.init [Input.connect, Input.disconnect]).1.deviceConnected = false ∧
    restarts (run State.init
      [Input.connect, Input.disconnect, Input.loopIter [], Input.loopIter [],
        Input.loopIter []]).2 = 0 ∧
    (run State.init [Input.connect, Input.loopIter []]).1.oldDeviceConnected = true ∧
    restarts (run State.init
      [Input.connect, Input.loopIter [], Input.disconnect, Input.connect, Input.loopIter [],
        Input.loopIter [], Input.loopIter []]).2 = 0 := by
  decide

/-- C17. No hash check: for a request write of `K = min (len / 4) 16` hashes on a connected
link followed by frames of which `K` are accepted (id 0x721, length at least 8), the events
of the drain are the requests for hash 1, ..., hash `K - 1` of the write followed by one
notification, whose payload is the concatenation, in arrival order, of the first eight data
bytes of the accepted frames. The frames' hash bytes appear only inside that payload. -/
theorem C17_no_hash_check (s : State) (w : List Nat) (fs : List CANfettiFrame)
    (hwf : s.WF) (hc : s.deviceConnected = true) (hp : s.pVarDataChar = true)
    (hlen : 4 ≤ w.length) (hfs : (fs.filter isVarResponse).length = min (w.length / 4) 16) :
    (processCanRx (VarRequestCharCallbacks.onWrite s w).1 fs).2 =
      (List.range' 1 (min (w.length / 4) 16 - 1)).map
          (fun i => Event.canTx (requestFrame (hashAt w i)))
        ++ [Event.bleNotify ((fs.filter isVarResponse).flatMap payload8)] :=
  (batch_events s w fs hwf hc hp hlen hfs).2

/-- C17, witness: two responses carrying hashes that were never requested. -/
theorem C17_no_hash_check_witness :
    State.connected.WF ∧
    (processCanRx (VarRequestCharCallbacks.onWrite State.connected [0, 0, 0, 1, 0, 0, 0, 2]).1
      [respFrame [9, 9, 9, 9, 0, 0, 0, 5], respFrame [7, 7, 7, 7, 0, 0, 0, 6]]).2
      = [Event.canTx (requestFrame 2),
          Event.bleNotify [9, 9, 9, 9, 0, 0, 0, 5, 7, 7, 7, 7, 0, 0, 0, 6]] :=
  ⟨by decide,
    (C17_no_hash_check State.connected [0, 0, 0, 1, 0, 0, 0, 2]
      [respFrame [9, 9, 9, 9, 0, 0, 0, 5], respFrame [7, 7, 7, 7, 0, 0, 0, 6]]
      (by decide) rfl rfl (by decide) (by decide)).trans (by decide)⟩

/-- C18. Idle is not inert: with no batch in flight, on a connected link with a valid
handle, one frame with id 0x721 and length at least 8 is notified at once as a payload of
exactly its first eight data bytes; no bus frame is sent and the state is Idle again. -/
theorem C18_idle_not_inert (s : State) (f : CANfettiFrame)
    (hcount : s.pendingVarCount = 0) (hidx : s.pendingVarIndex = 0)
    (hbrc : s.batchResponseCount = 0)
    (hc : s.deviceConnected = true) (hp : s.pVarDataChar = true)
    (hf : f.id = 0x721 ∧ 8 ≤ f.len) :
    (processCanFrame s f).2 = [Event.bleNotify (payload8 f)] ∧
    (payload8 f).length = 8 ∧
    (∀ j, j < 8 → (payload8 f).getD j 0 = byteAt f.buf j) ∧
    busFrames (processCanFrame s f).2 = [] ∧
    (processCanFrame s f).1.pendingVarCount = 0 ∧
    (processCanFrame s f).1.pendingVarIndex = 0 ∧
    (processCanFrame s f).1.batchResponseCount = 0 := by
  have hv : isVarResponse f = true := by
    simp only [isVarResponse, CAN_VAR_RESPONSE_BASE, ECU_ID, decide_eq_true_eq]
    exact ⟨hf.1, hf.2⟩
  have h := processCanFrame_accept s f hc hp hv (by rw [hbrc, hidx]) (by omega)
  rw [if_neg (by omega)] at h
  have e : (memcpy s.batchResponseBuffer (s.pendingVarIndex * 8) (payload8 f)).take
      ((s.pendingVarIndex + 1) * 8) = payload8 f := by
    have e1 : (s.pendingVarIndex + 1) * 8 = s.pendingVarIndex * 8 + (payload8 f).length := by
      rw [payload8_length]; omega
    rw [e1, memcpy_take _ _ _ (by omega), hidx]
    rfl
  rw [e] at h
  rw [h]
  refine ⟨rfl, payload8_length f, ?_, rfl, rfl, rfl, rfl⟩
  intro j hj
  rw [payload8_eq]
  interval_cases j <;> rfl

/-- C18, witness: a frame arriving right after connecting. -/
theorem C18_idle_not_inert_witness :
    State.connected.pendingVarCount = 0 ∧
    (processCanFrame State.connected (respFrame [0, 0, 0, 7, 1, 2, 3, 4])).2
      = [Event.bleNotify [0, 0, 0, 7, 1, 2, 3, 4]] :=
  ⟨rfl, (C18_idle_not_inert State.connected (respFrame [0, 0, 0, 7, 1, 2, 3, 4]) rfl rfl rfl
    rfl rfl (by decide)).1⟩

/-- C19. Disconnected stall: while `deviceConnected` is false or the notify handle is null,
draining any sequence of frames leaves the whole state unchanged and produces no bus
request and no notification. -/
theorem C19_disconnected_stall (s : State) (fs : List CANfettiFrame)
    (h : s.deviceConnected = false ∨ s.pVarDataChar = false) :
    processCanRx s fs = (s, []) ∧ ∀ f, processCanFrame s f = (s, []) :=
  ⟨processCanRx_ignored s fs h, fun f => processCanFrame_ignored s f (Or.inr h)⟩

/-- C19, witness: a batch in Requesting with the link down keeps its cursor. -/
theorem C19_disconnected_stall_witness :
    State.stalled.deviceConnected = false ∧
    State.stalled.pendingVarIndex < State.stalled.pendingVarCount ∧
    processCanRx State.stalled
      [respFrame [0, 0, 0, 1, 0, 0, 0, 9], respFrame [0, 0, 0, 2, 0, 0, 0, 9]]
      = (State.stalled, []) :=
  ⟨rfl, by decide,
    (C19_disconnected_stall State.stalled
      [respFrame [0, 0, 0, 1, 0, 0, 0, 9], respFrame [0, 0, 0, 2, 0, 0, 0, 9]]
      (Or.inl rfl)).1⟩

/-- C20. Bounds safety: from the initial state (after `setup()`, or before it), along every
sequence of entry points, the code with every access to `pendingVarHashes` and
`batchResponseBuffer`, every notified length and every counter increment checked never
fails, and computes exactly what the unchecked code computes. -/
theorem C20_bounds_safety (ins : List Input) :
    runChecked State.init ins = some (run State.init ins) ∧
    runChecked State.boot ins = some (run State.boot ins) :=
  ⟨runChecked_eq ins State.init batchInv_init, runChecked_eq ins State.boot batchInv_boot⟩

end EpicEFI
